import Mathlib

/-!
# Patient billing automation: statements, superbills and email drafts

A shallow embedding of the decision logic of

* `src/outputDocsProcessor.js` (`processOutputDocsFormat`),
* `src/emailProcessor.js` (`generateEmailDrafts`),
* `src/outputDocsFormat.js` (`createPatientData`),
* `src/billingsParser.js` (`validateBillingData`),
* `main.js` (the `process-files` and `analyze-billing-csv` handlers, `sendProgress`),
* `renderer.js` (`updateProcessButton`),

followed by the properties proved about it.

Modelling conventions.

* A JavaScript string is a list of characters (`Str`).  The lower-casing of
  names, which may hold any letter, is the engine's own function, a field of
  `Env`; the properties of name matching are proved for every such function.
  `toLowerCase` acts on the ASCII letters and serves the search for the ASCII
  words `paid`, `due` and the billing field words in a header: in the engine's
  lower-casing the adjacent letters of these words can only come from ASCII
  letters (the one other source of an `i`, U+0130, puts a combining dot after
  it), so the classification agrees with the engine on every header.
* The length of a string is its number of UTF-16 code units (`utf16Length`),
  two for a character outside the Basic Multilingual Plane; `padEnd` and
  `padStart` pad up to that length.
* A Number is modelled where its decimal digits determine it: NaN, zero, and
  the doubles given by at most 15 significant digits inside the normal range
  (`JSNumber.finite`).  Any other Number is `JSNumber.unrounded`; the model
  does not round it and gives it no text form.
* An object whose property values are strings (a row produced by `csv-parser`,
  a patient handed to the email composer) is a property list `Row`; reading a
  property gives `none` for `undefined`.
* `a || b` on string-or-undefined operands is `orElse`: the empty string and
  `undefined` are the falsy values.
* The clock, the locale and the `Date` parser are the fields of `Env`.
* File-system and PDF effects are not part of the model: the definitions give
  the values computed when the writes succeed.
-/

namespace PatientBilling

/-! ## Strings -/

/-- JavaScript string, as the list of its characters. -/
abbrev Str := List Char

instance : Coe String Str := ⟨String.toList⟩

/-- Lower-casing of the ASCII letters: `String.prototype.toLowerCase` as far
as the search for the ASCII words `paid`, `due` and the billing field words in
a header goes, and on ASCII text.  Names are lower-cased with the engine's
own function, `Env.lowerCase`. -/
def toLowerCase (s : Str) : Str := s.map Char.toLower

/-- `String.prototype.includes`: `pat` occurs in `s` as a contiguous block. -/
def includes : Str → Str → Bool
  | [], pat => pat.isPrefixOf []
  | c :: t, pat => pat.isPrefixOf (c :: t) || includes t pat

/-- White space and line terminators of ECMAScript, the characters that
`String.prototype.trim` strips. -/
def isWhiteSpace (c : Char) : Bool :=
  let n := c.toNat
  n == 0x09 || n == 0x0A || n == 0x0B || n == 0x0C || n == 0x0D || n == 0x20 ||
  n == 0xA0 || n == 0x1680 || (0x2000 ≤ n && n ≤ 0x200A) || n == 0x2028 ||
  n == 0x2029 || n == 0x202F || n == 0x205F || n == 0x3000 || n == 0xFEFF

/-- `String.prototype.trim`. -/
def trim (s : Str) : Str :=
  ((s.dropWhile isWhiteSpace).reverse.dropWhile isWhiteSpace).reverse

/-- Number of UTF-16 code units of a character: two outside the Basic
Multilingual Plane. -/
def utf16Units (c : Char) : Nat := if c.toNat < 0x10000 then 1 else 2

/-- The property `length` of a string: its number of UTF-16 code units. -/
def utf16Length (s : Str) : Nat := (s.map utf16Units).sum

/-- `String.prototype.padEnd(n)`: pads with spaces on the right up to the
length `n`, never cuts. -/
def padEnd (s : Str) (n : Nat) : Str := s ++ List.replicate (n - utf16Length s) ' '

/-- `String.prototype.padStart(n, c)` for a pad character `c` of the Basic
Multilingual Plane. -/
def padStart (s : Str) (n : Nat) (c : Char) : Str :=
  List.replicate (n - utf16Length s) c ++ s

/-- `String.prototype.slice(-2)`: the last two characters, on the text of a
number, whose characters are one UTF-16 unit each. -/
def sliceLast2 (s : Str) : Str := s.drop (s.length - 2)

/-- `String(n)` for a natural number. -/
def natToStr (n : Nat) : Str := (Nat.repr n).toList

/-- `String(n)` for an integer. -/
def intToStr : Int → Str
  | Int.ofNat n => natToStr n
  | Int.negSucc n => '-' :: natToStr (n + 1)

/-- `Array.prototype.join` on strings. -/
def join (sep : Str) (parts : List Str) : Str := sep.intercalate parts

/-! ## Objects with string properties -/

/-- Object whose property values are strings, as its list of properties. -/
abbrev Row := List (Str × Str)

/-- Property read `obj[key]`; `none` stands for `undefined`. -/
def getProp : Row → Str → Option Str
  | [], _ => none
  | (k, v) :: t, key => if k = key then some v else getProp t key

/-- `Object.keys`. -/
def keys (r : Row) : List Str := r.map Prod.fst

/-- The expression `a || b` for a string-or-undefined `a` and a string `b`. -/
def orElse : Option Str → Str → Str
  | some (c :: cs), _ => c :: cs
  | _, d => d

/-- The expression `a || b` where both operands may be `undefined`. -/
def orElseOpt : Option Str → Option Str → Option Str
  | some (c :: cs), _ => some (c :: cs)
  | _, d => d

/-- `String(v)` for a string-or-undefined value. -/
def toStringJS : Option Str → Str
  | some s => s
  | none => "undefined"

/-! ## Environment -/

/-- What the run reads from the clock, the locale and the `Date` parser. -/
structure Env where
  /-- Value of `new Date().toISOString().split('T')[0]`. -/
  todayISO : Str
  /-- Value of `new Date().toLocaleDateString()`. -/
  localeDate : Str
  /-- For `new Date(s)`: `getMonth()`, `getDate()` and `getFullYear()`, or
  `none` for an Invalid Date (the three getters then return NaN). -/
  dateFields : Str → Option (Nat × Nat × Int)
  /-- The engine's `String.prototype.toLowerCase`, the lower-casing of all of
  Unicode, which the roster predicate applies to names. -/
  lowerCase : Str → Str

/-! ## `src/outputDocsProcessor.js` -/

/-- The patient object built for one billing row (`pdfPath`, a join of the
output directory and `pdfFileName`, is left out). -/
structure Patient where
  firstName : Str
  lastName : Str
  name : Str
  diagnosis : Str
  location : Str
  cpt : Str
  charge : Str
  due : Str
  date : Str
  email : Str
  documentType : Str
  fileName : Str
  pdfFileName : Str
  textContent : Str
deriving DecidableEq, Repr

/-- Resolved value of `processOutputDocsFormat`. -/
structure ProcessResult where
  success : Bool
  patients : List Patient
  totalProcessed : Nat
deriving DecidableEq, Repr

/-- Lines 15-26: the document type of the run, from the first row's headers. -/
def determineDocumentType (billingData : List Row) : Str :=
  match billingData with
  | [] => "Statement"
  | first :: _ =>
    let headers := keys first
    let hasPaidColumn := headers.any fun header => includes (toLowerCase header) "paid"
    let hasDueColumn := headers.any fun header => includes (toLowerCase header) "due"
    if hasPaidColumn then "SuperBill"
    else if hasDueColumn then "Statement"
    else "Statement"

/-- Line 30. -/
def resolveFirstName (record : Row) : Str :=
  orElse (getProp record "First Name") (orElse (getProp record "FirstName")
    (orElse (getProp record "first_name") (orElse (getProp record "First") "")))

/-- Line 31. -/
def resolveLastName (record : Row) : Str :=
  orElse (getProp record "Last Name") (orElse (getProp record "LastName")
    (orElse (getProp record "last_name") (orElse (getProp record "Last") "")))

/-- Line 32. -/
def resolveFullName (record : Row) (index : Nat) : Str :=
  orElse (some (trim (resolveFirstName record ++ " " ++ resolveLastName record)))
    (orElse (getProp record "Patient") (orElse (getProp record "patient")
      (orElse (getProp record "Name") (orElse (getProp record "name")
        ("Patient_" ++ natToStr (index + 1))))))

/-- Line 34. -/
def resolveDiagnosis (record : Row) : Str :=
  orElse (getProp record "Dx") (orElse (getProp record "DX")
    (orElse (getProp record "Diagnosis") (orElse (getProp record "diagnosis") "")))

/-- Line 35. -/
def resolveLocation (record : Row) : Str :=
  orElse (getProp record "Location") (orElse (getProp record "location") "")

/-- Line 36. -/
def resolveCpt (record : Row) : Str :=
  orElse (getProp record "CPT") (orElse (getProp record "cpt")
    (orElse (getProp record "Service") (orElse (getProp record "service")
      (orElse (getProp record "Description") (orElse (getProp record "description") "")))))

/-- Line 37. -/
def resolveCharge (record : Row) : Str :=
  orElse (getProp record "Charge") (orElse (getProp record "charge")
    (orElse (getProp record "Amount") (orElse (getProp record "amount")
      (orElse (getProp record "Total") (orElse (getProp record "total") "0.00")))))

/-- Line 38. -/
def resolveDue (record : Row) : Str :=
  orElse (getProp record "Due") (orElse (getProp record "due")
    (orElse (getProp record "Amount Due") (orElse (getProp record "amount_due")
      (orElse (some (resolveCharge record)) "0.00"))))

/-- Line 39. -/
def resolveDate (env : Env) (record : Row) : Str :=
  orElse (getProp record "Date") (orElse (getProp record "date") env.todayISO)

/-- The operand `e.K && e.K.toLowerCase() === fullName.toLowerCase()` of the
roster predicate, lines 45-48. -/
def fieldMatches (lowerCase : Str → Str) (field : Option Str) (fullName : Str) : Bool :=
  match field with
  | some (c :: cs) => decide (lowerCase (c :: cs) = lowerCase fullName)
  | _ => false

/-- The last operand of the roster predicate, line 49. -/
def composedMatches (lowerCase : Str → Str) (first last : Option Str) (fullName : Str) :
    Bool :=
  match first, last with
  | some (c :: cs), some (d :: ds) =>
    decide (lowerCase ((c :: cs) ++ " " ++ (d :: ds)) = lowerCase fullName)
  | _, _ => false

/-- The predicate handed to `emailData.find`, lines 44-50. -/
def rosterMatches (lowerCase : Str → Str) (fullName : Str) (e : Row) : Bool :=
  fieldMatches lowerCase (getProp e "Patient") fullName ||
  fieldMatches lowerCase (getProp e "Name") fullName ||
  fieldMatches lowerCase (getProp e "patient") fullName ||
  fieldMatches lowerCase (getProp e "name") fullName ||
  composedMatches lowerCase (getProp e "First Name") (getProp e "Last Name") fullName

/-- Line 52: the email of a roster row. -/
def rosterEmail (emailRecord : Row) : Str :=
  orElse (getProp emailRecord "Email") (orElse (getProp emailRecord "email")
    (orElse (getProp emailRecord "Email Address") ""))

/-- Lines 42-54: the email address resolved for a patient. -/
def resolveEmail (lowerCase : Str → Str) (emailData : Option (List Row)) (fullName : Str) :
    Str :=
  match emailData with
  | none => ""
  | some roster =>
    match roster.find? (rosterMatches lowerCase fullName) with
    | some emailRecord => rosterEmail emailRecord
    | none => ""

/-- Lines 59-60: `MM-DD-YY` from the getters of `new Date(date)`. -/
def formatDate (env : Env) (date : Str) : Str :=
  match env.dateFields date with
  | some (month, day, year) =>
    padStart (natToStr (month + 1)) 2 '0' ++ "-" ++ padStart (natToStr day) 2 '0' ++ "-" ++
      sliceLast2 (intToStr year)
  | none => padStart "NaN" 2 '0' ++ "-" ++ padStart "NaN" 2 '0' ++ "-" ++ sliceLast2 "NaN"

/-- The constant practice block that opens every statement, lines 84-94. -/
def practiceHeader : Str :=
  "Michelle Kwok M.D.\n1225 Crane Street\nSuite 106B\nMenlo Park, CA 94025\nPhone 408 421 5826\nFax 408 520 3776\n\nTax ID  82-4268494\nLicense A84230\nNPI 1104905959\n\n"

/-- Lines 84-102: the rendered statement text. -/
def statementContent (env : Env) (firstName lastName diagnosis location date cpt charge due : Str) :
    Str :=
  practiceHeader ++
  "Patient: " ++ firstName ++ " " ++ lastName ++ "\n" ++
  "Diagnosis: " ++ diagnosis ++ "\n" ++
  "Location: " ++ location ++ "\n" ++
  "Date: " ++ env.localeDate ++ "\n" ++
  "\n" ++
  padEnd "Date" 12 ++ " " ++ padEnd "CPT" 12 ++ " " ++ padEnd "Charge" 12 ++ " " ++
    padEnd "Due" 12 ++ "\n" ++
  List.replicate 60 '-' ++ "\n" ++
  padEnd date 12 ++ " " ++ padEnd cpt 12 ++ " " ++ ("$" ++ padEnd charge 11) ++ " " ++
    ("$" ++ padEnd due 11)

/-- Body of the `forEach` callback, lines 29-112: the patient built for the
row `record` at position `index`. -/
def buildPatient (env : Env) (documentType : Str) (emailData : Option (List Row))
    (record : Row) (index : Nat) : Patient :=
  let firstName := resolveFirstName record
  let lastName := resolveLastName record
  let fullName := resolveFullName record index
  let diagnosis := resolveDiagnosis record
  let location := resolveLocation record
  let cpt := resolveCpt record
  let charge := resolveCharge record
  let due := resolveDue record
  let date := resolveDate env record
  let emailAddress := resolveEmail env.lowerCase emailData fullName
  let formattedDate := formatDate env date
  let baseFileName := firstName ++ " " ++ lastName ++ " " ++ documentType ++ " " ++ formattedDate
  { firstName := firstName
    lastName := lastName
    name := fullName
    diagnosis := diagnosis
    location := location
    cpt := cpt
    charge := charge
    due := due
    date := date
    email := emailAddress
    documentType := documentType
    fileName := baseFileName ++ ".txt"
    pdfFileName := baseFileName ++ ".pdf"
    textContent := statementContent env firstName lastName diagnosis location date cpt charge due }

/-- The loop `billingData.forEach((record, index) => ... patients.push(patient))`:
`index` is the position of the next row, `patients` the array pushed so far. -/
def forEachRecord (env : Env) (documentType : Str) (emailData : Option (List Row)) :
    List Row → Nat → List Patient → List Patient
  | [], _, patients => patients
  | record :: rest, index, patients =>
    forEachRecord env documentType emailData rest (index + 1)
      (patients ++ [buildPatient env documentType emailData record index])

/-- `processOutputDocsFormat(billingData, emailData, outputDirectory)`, the
value the promise resolves with. -/
def processOutputDocsFormat (env : Env) (billingData : List Row)
    (emailData : Option (List Row)) : ProcessResult :=
  let documentType := determineDocumentType billingData
  let patients := forEachRecord env documentType emailData billingData 0 []
  { success := true, patients := patients, totalProcessed := patients.length }

/-! ## `src/emailProcessor.js` -/

/-- `GetSubstitution` for a pattern without capture groups: expands the `$`
sequences of a replacement string.  `matched` is the matched text, `before`
and `after` the parts of the subject string around the match. -/
def getSubstitution (matched before after : Str) : Str → Str
  | [] => []
  | c :: rest =>
    if c = '$' then
      match rest with
      | [] => ['$']
      | d :: t =>
        if d = '$' then '$' :: getSubstitution matched before after t
        else if d = '&' then matched ++ getSubstitution matched before after t
        else if d.toNat = 96 then before ++ getSubstitution matched before after t
        else if d.toNat = 39 then after ++ getSubstitution matched before after t
        else '$' :: d :: getSubstitution matched before after t
    else c :: getSubstitution matched before after rest

/-- Scan of `String.prototype.replace` with a global regular expression that
matches the literal text `pat` (non-empty).  `skip` counts the characters
of the current match still to be dropped, `pre` is the part of the subject
string already passed. -/
def replaceGo (pat repl : Str) : Nat → Str → Str → Str
  | _, _, [] => []
  | skip + 1, pre, c :: t => replaceGo pat repl skip (pre ++ [c]) t
  | 0, pre, c :: t =>
    if pat.isPrefixOf (c :: t) then
      getSubstitution pat pre ((c :: t).drop pat.length) repl ++
        replaceGo pat repl (pat.length - 1) (pre ++ [c]) t
    else c :: replaceGo pat repl 0 (pre ++ [c]) t

/-- `s.replace(/pat/g, replaceValue)` for a literal pattern; the replace value
is converted with `String(...)` first. -/
def replaceAll (pat : Str) (replaceValue : Option Str) (s : Str) : Str :=
  replaceGo pat (toStringJS replaceValue) 0 [] s

/-- An email draft, lines 31-36. -/
structure EmailDraft where
  /-- The field `to` of the draft. -/
  to_ : Str
  subject : Str
  body : Str
  /-- The field `patient`: the patient's name, `none` when it is undefined. -/
  patient : Option Str
deriving DecidableEq, Repr

/-- Line 18: `!patient.email || patient.email.trim() === ''`. -/
def hasNoEmail (patient : Row) : Bool :=
  match getProp patient "email" with
  | none => true
  | some [] => true
  | some (c :: cs) => decide (trim (c :: cs) = [])

/-- Lines 24-29: the personalised body. -/
def personalize (emailTemplate : Str) (patient : Row) : Str :=
  let t1 := replaceAll "{name}" (getProp patient "name") emailTemplate
  let t2 := replaceAll "{amount}" (getProp patient "amount") t1
  let t3 := replaceAll "{service}" (getProp patient "service") t2
  let t4 := replaceAll "{date}" (getProp patient "date") t3
  replaceAll "{balance}" (orElseOpt (getProp patient "balance") (getProp patient "amount")) t4

/-- Lines 31-36: the draft composed for a patient that has an email. -/
def composeDraft (emailTemplate emailSubject : Str) (patient : Row) : EmailDraft :=
  { to_ := toStringJS (getProp patient "email")
    subject := replaceAll "{name}" (getProp patient "name") emailSubject
    body := personalize emailTemplate patient
    patient := getProp patient "name" }

/-- The loop of lines 10-42 over the patients still to be visited, with the
two arrays filled so far. -/
def draftLoop (emailTemplate emailSubject : Str) :
    List Row → List Row → List EmailDraft → List Row × List EmailDraft
  | [], patientsWithoutEmails, patientsWithEmails => (patientsWithoutEmails, patientsWithEmails)
  | patient :: rest, patientsWithoutEmails, patientsWithEmails =>
    if hasNoEmail patient then
      draftLoop emailTemplate emailSubject rest (patientsWithoutEmails ++ [patient])
        patientsWithEmails
    else
      draftLoop emailTemplate emailSubject rest patientsWithoutEmails
        (patientsWithEmails ++ [composeDraft emailTemplate emailSubject patient])

/-- Line 48: one record of the drafts file. -/
def draftRecord (draft : EmailDraft) : Str :=
  "To: " ++ draft.to_ ++ "\nSubject: " ++ draft.subject ++ "\n\n" ++ draft.body ++ "\n\n" ++
    List.replicate 50 '=' ++ "\n"

/-- Lines 47-49: the text of the drafts file. -/
def draftsContent (patientsWithEmails : List EmailDraft) : Str :=
  join "\n" (patientsWithEmails.map draftRecord)

/-- Value returned by `generateEmailDrafts`, together with the array of drafts
it composed and the text it wrote to `email_drafts.txt` (`none` when no file
is written). -/
structure DraftsResult where
  success : Bool
  emailsSent : Nat
  patientsWithoutEmails : List Row
  drafts : List EmailDraft
  draftsFile : Option Str
deriving DecidableEq, Repr

/-- `generateEmailDrafts(patients, emailTemplate, emailSubject, ...)`. -/
def generateEmailDrafts (patients : List Row) (emailTemplate emailSubject : Str) :
    DraftsResult :=
  let (patientsWithoutEmails, patientsWithEmails) :=
    draftLoop emailTemplate emailSubject patients [] []
  { success := true
    emailsSent := patientsWithEmails.length
    patientsWithoutEmails := patientsWithoutEmails
    drafts := patientsWithEmails
    draftsFile :=
      if 0 < patientsWithEmails.length then some (draftsContent patientsWithEmails) else none }

/-! ## `main.js`: the `process-files` handler -/

/-- The properties of the patient object that `processOutputDocsFormat` pushes,
as the email composer reads them. -/
def Patient.toObject (p : Patient) : Row :=
  [("firstName", p.firstName), ("lastName", p.lastName), ("name", p.name),
   ("diagnosis", p.diagnosis), ("location", p.location), ("cpt", p.cpt),
   ("charge", p.charge), ("due", p.due), ("date", p.date), ("email", p.email),
   ("documentType", p.documentType), ("fileName", p.fileName),
   ("pdfFileName", p.pdfFileName), ("textContent", p.textContent)]

/-- Lines 96-111 of `main.js`: the patients are built from the billing data
and, when drafts are requested, handed to `generateEmailDrafts`. -/
def processFiles (env : Env) (billingData : List Row) (emailData : Option (List Row))
    (emailTemplate emailSubject : Str) (createEmailDrafts : Bool) : Option DraftsResult :=
  let result := processOutputDocsFormat env billingData emailData
  if createEmailDrafts then
    some (generateEmailDrafts (result.patients.map Patient.toObject) emailTemplate emailSubject)
  else none

/-! ## Notions used by the statements -/

/-- The header contains `word` as a substring in some letter case: a contiguous
block of the header lower-cases to `word`. -/
def ContainsAnyCase (header word : Str) : Prop :=
  ∃ pre w post, header = pre ++ w ++ post ∧ toLowerCase w = word

/-- The first alias of the list, in order, under which the row holds a
non-empty value, with that value. -/
def firstNonEmpty (record : Row) : List Str → Option Str
  | [] => none
  | k :: ks =>
    match getProp record k with
    | some (c :: cs) => some (c :: cs)
    | _ => firstNonEmpty record ks

/-! ## Sample inputs -/

/-- A machine whose local time zone is UTC, on 4 November 2026; its `Date`
parser is given at the one date text the examples on it use, `2024-01-15`,
and its lower-casing on ASCII text, which is all the examples use. -/
def sampleEnv : Env :=
  { todayISO := "2026-11-04"
    localeDate := "11/4/2026"
    dateFields := fun s => if s = ("2024-01-15" : Str) then some (0, 15, 2024) else none
    lowerCase := toLowerCase }

/-- A superbill row: a header with `Paid` next to a header with `Due`. -/
def paidAndDueRow : Row :=
  [("FirstName", "Jane"), ("LastName", "Doe"), ("Amount Due", "20.00"), ("Amount PAID", "130.00")]

/-- A statement row: a `Due` header and no `Paid` header. -/
def janeDueRow : Row :=
  [("FirstName", "Jane"), ("LastName", "Doe"), ("Due", "150.00"), ("CPT", "99213"),
   ("Date", "2024-01-15")]

/-- A row with neither a `Paid` nor a `Due` header. -/
def chargeOnlyRow : Row := [("Patient", "Bob Ray"), ("Charge", "10.00")]

/-- A row whose first name is a single blank, with a whole-name field. -/
def blankFirstNameRow : Row := [("FirstName", " "), ("LastName", ""), ("Patient", "Bob Ray")]

/-- A row whose `FirstName`, `LastName` and `Patient` are all empty. -/
def unnamedRow : Row := [("FirstName", ""), ("LastName", ""), ("Patient", "")]

/-- The names of the whole-name fields of a roster row, in the order the
roster predicate reads them. -/
def wholeNameFields : List Str := ["Patient", "Name", "patient", "name"]

/-- The match rule as the specification words it: a whole-name field equal to
the full name ignoring letter case, or "{First Name} {Last Name}" equal to
it ignoring letter case.  Two texts are equal ignoring letter case when the
engine's lower-casing `lowerCase` makes them equal. -/
def StatedMatchRule (lowerCase : Str → Str) (fullName : Str) (e : Row) : Prop :=
  (∃ k ∈ wholeNameFields, ∃ v, getProp e k = some v ∧ lowerCase v = lowerCase fullName) ∨
  (∃ f l, getProp e "First Name" = some f ∧ getProp e "Last Name" = some l ∧
    lowerCase (f ++ " " ++ l) = lowerCase fullName)

/-- The match rule with the guards of the roster predicate: the whole-name
field is non-empty, and `First Name` and `Last Name` are both non-empty. -/
def MatchRule (lowerCase : Str → Str) (fullName : Str) (e : Row) : Prop :=
  (∃ k ∈ wholeNameFields, ∃ v, getProp e k = some v ∧ v ≠ [] ∧
    lowerCase v = lowerCase fullName) ∨
  (∃ f l, getProp e "First Name" = some f ∧ getProp e "Last Name" = some l ∧
    f ≠ [] ∧ l ≠ [] ∧ lowerCase (f ++ " " ++ l) = lowerCase fullName)

/-- A billing row named only by a whole-name field that starts with a blank. -/
def leadingBlankRow : Row := [("Patient", " Doe"), ("Charge", "40.00")]

/-- A roster row without a first name. -/
def noFirstNameEntry : Row := [("First Name", ""), ("Last Name", "Doe"), ("Email", "doe@example.com")]

/-- Two roster rows that both match the patient `Jane Doe`. -/
def twoMatchRoster : List Row :=
  [[("Name", "jane doe"), ("Email", "first@example.com")],
   [("Patient", "JANE DOE"), ("Email", "second@example.com")]]

/-- Lower-casing of the letters of ASCII and of the Latin-1 Supplement
(U+00C0 to U+00DE without the sign U+00D7 go 32 code points up): the engine's
`toLowerCase` on text of these two blocks. -/
def latin1LowerCase (s : Str) : Str :=
  s.map fun c =>
    if 0xC0 ≤ c.toNat ∧ c.toNat ≤ 0xDE ∧ c.toNat ≠ 0xD7 then Char.ofNat (c.toNat + 32)
    else c.toLower

/-- A billing row for a patient whose name has accented letters. -/
def accentedNameRow : Row :=
  [("FirstName", "José"), ("LastName", "García"), ("Due", "80.00"), ("Date", "2024-01-15")]

/-- Two roster rows for `José García`, the first in upper case. -/
def accentedRoster : List Row :=
  [[("Name", "JOSÉ GARCÍA"), ("Email", "first@example.com")],
   [("Name", "José García"), ("Email", "second@example.com")]]

/-- A roster row whose name has blanks around it. -/
def paddedNameEntry : Row := [("Name", " jane doe "), ("Email", "jane@example.com")]

/-- A roster row whose name differs from `Jane Doe` in letter case only. -/
def upperNameEntry : Row := [("Name", "JANE DOE"), ("Email", "jane@example.com")]

/-- A roster row for somebody else. -/
def otherEntry : Row := [("Name", "Bob Ray"), ("Email", "bob@example.com")]

/-- The patient has no usable email: the property is missing, empty, or holds
white space only. -/
def emailBlank (patient : Row) : Bool :=
  match getProp patient "email" with
  | none => true
  | some e => e.all isWhiteSpace

/-- Literal find-and-replace, the scan: every occurrence of `pat`, left to
right and without overlap, is replaced by the text `v` as it stands.  `skip`
counts the characters of the current occurrence still to be dropped. -/
def literalReplaceGo (pat v : Str) : Nat → Str → Str
  | _, [] => []
  | skip + 1, _ :: t => literalReplaceGo pat v skip t
  | 0, c :: t =>
    if pat.isPrefixOf (c :: t) then v ++ literalReplaceGo pat v (pat.length - 1) t
    else c :: literalReplaceGo pat v 0 t

/-- Literal find-and-replace of `pat` by `v` in `s`. -/
def literalReplace (pat v s : Str) : Str := literalReplaceGo pat v 0 s

/-- A patient with a name, an amount and an email, and no balance. -/
def janePatient : Row :=
  [("name", "Jane Doe"), ("amount", "150.00"), ("email", "jane@example.com")]

/-- A patient without a balance whose amount begins with `$$`. -/
def dollarAmountPatient : Row :=
  [("name", "Jane Doe"), ("amount", "$$20"), ("email", "jane@example.com")]

/-- A patient whose name and amount contain `$` sequences. -/
def dollarPatient : Row :=
  [("name", "Ann $& Lee"), ("amount", "$$20"), ("service", "99213"), ("date", "2024-01-15"),
   ("email", "ann@example.com")]

/-- A patient whose name is the text of another placeholder. -/
def placeholderNamePatient : Row :=
  [("name", "{amount}"), ("amount", "5"), ("service", "99213"), ("date", "2024-01-15"),
   ("email", "pat@example.com")]

/-- A billing row with a charge and a service code. -/
def janeChargeRow : Row :=
  [("First Name", "Jane"), ("Last Name", "Doe"), ("Charge", "150.00"), ("CPT", "99213"),
   ("Date", "2024-01-15")]

/-- A roster with the email of Jane Doe. -/
def janeRoster : List Row := [[("Name", "Jane Doe"), ("Email", "jane@example.com")]]

/-- The aliases of the first name, in the order line 30 reads them. -/
def firstNameAliases : List Str := ["First Name", "FirstName", "first_name", "First"]

/-- The aliases of the last name, in the order line 31 reads them. -/
def lastNameAliases : List Str := ["Last Name", "LastName", "last_name", "Last"]

/-- The aliases of the diagnosis, in the order line 34 reads them. -/
def diagnosisAliases : List Str := ["Dx", "DX", "Diagnosis", "diagnosis"]

/-- The aliases of the location, in the order line 35 reads them. -/
def locationAliases : List Str := ["Location", "location"]

/-- The aliases of the service code, in the order line 36 reads them. -/
def cptAliases : List Str := ["CPT", "cpt", "Service", "service", "Description", "description"]

/-- The aliases of the charge, in the order line 37 reads them. -/
def chargeAliases : List Str := ["Charge", "charge", "Amount", "amount", "Total", "total"]

/-- The aliases of the amount due, in the order line 38 reads them. -/
def dueAliases : List Str := ["Due", "due", "Amount Due", "amount_due"]

/-- The aliases of the date, in the order line 39 reads them. -/
def dateAliases : List Str := ["Date", "date"]

/-- A non-negative decimal written with exactly two digits after the point:
one or more digits, a point, two digits. -/
def isTwoDecimal (s : Str) : Bool :=
  match s.reverse with
  | d2 :: d1 :: '.' :: rest => d1.isDigit && d2.isDigit && !rest.isEmpty && rest.all Char.isDigit
  | _ => false

/-- A row with an empty `CPT` cell and a `Service` cell. -/
def emptyCptRow : Row := [("CPT", ""), ("Service", "X")]

/-- Four rows whose charge cells are `150`, `-20.00`, `$1,200.5` and `abc`. -/
def rawChargeRows : List Row :=
  [[("Patient", "A"), ("Charge", "150")], [("Patient", "B"), ("Charge", "-20.00")],
   [("Patient", "C"), ("Charge", "$1,200.5")], [("Patient", "D"), ("Charge", "abc")]]

/-! ## `src/outputDocsFormat.js`: `createPatientData` -/

/-- The Number values that `parseFloat` produces from a text over the
characters `0-9`, `.` and `-`.  Such a text is a decimal literal
`±0.d₁d₂…d_k × 10ⁿ`, given by its significant digits `sig` (no leading and no
trailing `0`) and the position `n` of the decimal point, and the engine stores
the IEEE double nearest to it.

* `finite negative sig n` is that double when the literal has at most 15
  significant digits and `-306 ≤ n ≤ 308`, so that its magnitude is at least
  10⁻³⁰⁷ and below 10³⁰⁸, inside the range of the normal doubles.  There
  distinct literals give distinct doubles, and `Number::toString`, which prints
  the shortest digits that read back as the same double, prints `sig`.  Zero is
  `finite false [] 0`: its sign is dropped, the two zeros being equal under
  `===` and printed alike.
* `unrounded negative sig n` is the double nearest to any other literal: one
  of more than 15 significant digits, which the engine rounds, or of a
  magnitude that leaves the normal range, which it turns into a subnormal,
  zero or `±Infinity`.  The model does not compute that rounding, and gives
  such a value no text form.

Equality of these values is the engine's SameValueZero on the Numbers they
stand for, as far as `NaN` and `finite` go: NaN is the same as NaN, and the two
zeros are the same. -/
inductive JSNumber where
  | NaN : JSNumber
  | finite (negative : Bool) (sig : Str) (n : Int) : JSNumber
  | unrounded (negative : Bool) (sig : Str) (n : Int) : JSNumber
deriving DecidableEq, Repr

/-- The Number zero. -/
def JSNumber.zero : JSNumber := JSNumber.finite false [] 0

/-- The value of the literal with integer digits `intDigits` and fraction
digits `fracDigits`: leading and trailing zeros are dropped from the digits. -/
def normalizeDecimal (negative : Bool) (intDigits fracDigits : Str) : JSNumber :=
  let digits := intDigits ++ fracDigits
  let lead := (digits.takeWhile fun c => c = '0').length
  let sig := (((digits.drop lead).reverse).dropWhile fun c => c = '0').reverse
  let n : Int := (intDigits.length : Int) - (lead : Int)
  if sig = [] then JSNumber.zero
  else if sig.length ≤ 15 ∧ -306 ≤ n ∧ n ≤ 308 then JSNumber.finite negative sig n
  else JSNumber.unrounded negative sig n

/-- The unsigned part of `parseFloat`: the longest prefix of the forms
`digits`, `digits.`, `digits.digits` or `.digits`; NaN when there is none. -/
def parseUnsigned (negative : Bool) (s : Str) : JSNumber :=
  let intDigits := s.takeWhile Char.isDigit
  let fracDigits :=
    match s.dropWhile Char.isDigit with
    | '.' :: t => t.takeWhile Char.isDigit
    | _ => []
  if intDigits = [] ∧ fracDigits = [] then JSNumber.NaN
  else normalizeDecimal negative intDigits fracDigits

/-- `parseFloat(s)` for a text over the characters `0-9`, `.` and `-`, the
only ones the stripping of `createPatientData` leaves. -/
def parseFloat : Str → JSNumber
  | '-' :: t => parseUnsigned true t
  | s => parseUnsigned false s

/-- The exponent part `e+x` or `e-x` of `Number::toString`. -/
def exponentText (e : Int) : Str :=
  "e" ++ (if 0 ≤ e then "+" else "-") ++ natToStr e.natAbs

/-- `Number::toString` (radix 10) on the digits `sig` of a positive value
`0.sig × 10ⁿ`. -/
def digitsToString (sig : Str) (n : Int) : Str :=
  let k : Int := sig.length
  if k ≤ n ∧ n ≤ 21 then sig ++ List.replicate (n - k).toNat '0'
  else if 0 < n ∧ n ≤ 21 then sig.take n.toNat ++ "." ++ sig.drop n.toNat
  else if -6 < n ∧ n ≤ 0 then "0." ++ List.replicate (-n).toNat '0' ++ sig
  else if k = 1 then sig ++ exponentText (n - 1)
  else sig.take 1 ++ "." ++ sig.drop 1 ++ exponentText (n - 1)

/-- `String(x)` for a Number; `none` for a Number that the model does not
compute. -/
def numberToString : JSNumber → Option Str
  | JSNumber.NaN => some "NaN"
  | JSNumber.finite negative sig n =>
    some (if sig = [] then "0" else (if negative then "-" else "") ++ digitsToString sig n)
  | JSNumber.unrounded _ _ _ => none

/-- `s.replace(/[^0-9.-]/g, '')`. -/
def stripNonNumeric (s : Str) : Str :=
  s.filter fun c => c.isDigit || c = '.' || c = '-'

/-- Lines 387-388: `parseFloat(text.toString().replace(/[^0-9.-]/g, ''))` for
the text that the `||` chain of the cell gives. -/
def coerceAmount (text : Str) : JSNumber :=
  parseFloat (stripNonNumeric text)

/-- One entry of `billingRecords` in the value of `createPatientData`. -/
structure BillingRecord where
  date : Str
  cpt : Str
  charge : JSNumber
  payment : JSNumber
  description : Str
deriving DecidableEq, Repr

/-- Value of `createPatientData`; `none` stands for `null`.  The field
`totalCharges`, a floating-point sum, is left out. -/
structure PatientData where
  firstName : Str
  lastName : Str
  diagnosisCode : Option Str
  locationCode : Option Str
  paymentColumnName : Str
  billingRecords : List BillingRecord
deriving DecidableEq, Repr

/-- `billingRecords[0]?.[key]`. -/
def firstRecordProp (billingRecords : List Row) (key : Str) : Option Str :=
  match billingRecords with
  | [] => none
  | record :: _ => getProp record key

/-- Lines 384-390: the entry built for one billing record. -/
def toBillingRecord (record : Row) : BillingRecord :=
  { date := orElse (getProp record "Date") (orElse (getProp record "date") "")
    cpt := orElse (getProp record "CPT") (orElse (getProp record "cpt") "")
    charge := coerceAmount (orElse (getProp record "Charge") (orElse (getProp record "charge") "0"))
    payment := coerceAmount (orElse (getProp record "Due") (orElse (getProp record "Paid")
      (orElse (getProp record "Payment") (orElse (getProp record "payment") "0"))))
    description :=
      orElse (getProp record "Description") (orElse (getProp record "description") "") }

/-- `createPatientData(firstName, lastName, billingRecords, diagnosisCode,
paymentColumn)`. -/
def createPatientData (firstName lastName : Str) (billingRecords : List Row)
    (diagnosisCode paymentColumn : Option Str) : PatientData :=
  { firstName := firstName
    lastName := lastName
    diagnosisCode := orElseOpt diagnosisCode (orElseOpt (firstRecordProp billingRecords "Dx")
      (orElseOpt (firstRecordProp billingRecords "Diagnosis") none))
    locationCode := orElseOpt (firstRecordProp billingRecords "Location")
      (orElseOpt (firstRecordProp billingRecords "location") none)
    paymentColumnName := orElse paymentColumn "Payments"
    billingRecords := billingRecords.map toBillingRecord }

/-- The charge of `createPatientData` for a record whose only cell is
`Charge`. -/
def coerceCell (x : Str) : JSNumber :=
  match (createPatientData "" "" [[("Charge", x)]] none none).billingRecords with
  | r :: _ => r.charge
  | [] => JSNumber.NaN

/-- A record whose charge cell has no digit and whose due cell is a lone
minus sign. -/
def unparsableRecord : Row := [("Charge", "abc"), ("Due", "-")]

/-- A record whose charge and due cells are empty. -/
def emptyAmountsRecord : Row := [("Charge", ""), ("Due", "")]

/-- Gregorian leap year. -/
def isLeapYear (y : Nat) : Bool := (y % 4 == 0 && y % 100 != 0) || y % 400 == 0

/-- Number of days of month `m` (1 to 12) of year `y`. -/
def daysInMonth (y m : Nat) : Nat :=
  if m = 2 then (if isLeapYear y then 29 else 28)
  else if m = 4 ∨ m = 6 ∨ m = 9 ∨ m = 11 then 30
  else 31

/-- The calendar day before day `d` of month `m` of year `y`. -/
def previousDay (y m d : Nat) : Int × Nat × Nat :=
  if 1 < d then (y, m, d - 1)
  else if 1 < m then (y, m - 1, daysInMonth y (m - 1))
  else ((y : Int) - 1, 12, 31)

/-- The value of a decimal digit. -/
def digitValue (c : Char) : Nat := c.toNat - '0'.toNat

/-- A date-only ISO text `YYYY-MM-DD` of a calendar date, as year, month
(1 to 12) and day. -/
def parseIsoDate (s : Str) : Option (Nat × Nat × Nat) :=
  match s with
  | [y1, y2, y3, y4, '-', m1, m2, '-', d1, d2] =>
    if [y1, y2, y3, y4, m1, m2, d1, d2].all Char.isDigit then
      let y := digitValue y1 * 1000 + digitValue y2 * 100 + digitValue y3 * 10 + digitValue y4
      let m := digitValue m1 * 10 + digitValue m2
      let d := digitValue d1 * 10 + digitValue d2
      if 1 ≤ m ∧ m ≤ 12 ∧ 1 ≤ d ∧ d ≤ daysInMonth y m then some (y, m, d) else none
    else none
  | _ => none

/-- The getters `getMonth()`, `getDate()`, `getFullYear()` of `new Date(s)`
for a date-only ISO text `s`, which denotes midnight UTC of that date: in a
local time zone west of UTC that instant falls on the previous calendar day,
in UTC and east of it on the day itself.  Texts of another form are not
described by this function: it treats them as Invalid Date. -/
def isoDateFields (westOfUtc : Bool) (s : Str) : Option (Nat × Nat × Int) :=
  match parseIsoDate s with
  | some (y, m, d) =>
    if westOfUtc then
      match previousDay y m d with
      | (y', m', d') => some (m' - 1, d', y')
    else some (m - 1, d, (y : Int))
  | none => none

/-- A machine whose local time zone is west of UTC (America/Los_Angeles, where
the practice is), on 4 November 2026; its lower-casing is given on ASCII text,
which is all the examples use. -/
def pacificEnv : Env :=
  { todayISO := "2026-11-04"
    localeDate := "11/4/2026"
    dateFields := isoDateFields true
    lowerCase := toLowerCase }

/-- A machine whose local time zone is UTC, on 4 November 2026; its
lower-casing is given on ASCII text, which is all the examples use. -/
def utcEnv : Env :=
  { todayISO := "2026-11-04"
    localeDate := "11/4/2026"
    dateFields := isoDateFields false
    lowerCase := toLowerCase }

/-- A machine like `utcEnv` whose lower-casing is given on ASCII and Latin-1
text. -/
def latin1Env : Env :=
  { todayISO := "2026-11-04"
    localeDate := "11/4/2026"
    dateFields := isoDateFields false
    lowerCase := latin1LowerCase }

/-- A row whose date cell is not a date. -/
def badDateRow : Row :=
  [("FirstName", "Jane"), ("LastName", "Doe"), ("Due", "150.00"), ("Date", "not a date")]

/-- The column-header row of the statement table, line 100. -/
def columnHeaderRow : Str :=
  padEnd "Date" 12 ++ " " ++ padEnd "CPT" 12 ++ " " ++ padEnd "Charge" 12 ++ " " ++ padEnd "Due" 12

/-- The data row of the statement table, line 102. -/
def dataRow (date cpt charge due : Str) : Str :=
  padEnd date 12 ++ " " ++ padEnd cpt 12 ++ " " ++ ("$" ++ padEnd charge 11) ++ " " ++
    ("$" ++ padEnd due 11)

/-- The last line of a text: what follows its last line feed. -/
def lastLine (s : Str) : Str := (s.reverse.takeWhile fun c => c ≠ '\n').reverse

/-- The line that the specification expects for the row `janeDueRow`. -/
def expectedJaneLine : Str := "01-15-24    99213        $150.00     $0.00      "

/-- A second patient with an email. -/
def bobPatient : Row :=
  [("name", "Bob Ray"), ("amount", "10.00"), ("email", "bob@example.com")]

/-! ## `src/billingsParser.js` and `renderer.js` -/

/-- Value of `validateBillingData`. -/
structure ValidationResult where
  type : Str
  valid : Bool
deriving DecidableEq, Repr

/-- The list `billingFields` of `validateBillingData`, line 29. -/
def billingFields : List Str :=
  ["patient", "name", "amount", "service", "date", "balance", "total"]

/-- `validateBillingData(data)`; `none` stands for a null or undefined
argument. -/
def validateBillingData (data : Option (List Row)) : ValidationResult :=
  match data with
  | none => { type := "empty", valid := false }
  | some [] => { type := "empty", valid := false }
  | some (firstRow :: _) =>
    let headers := (keys firstRow).map fun h => trim (toLowerCase h)
    let hasBillingFields := billingFields.any fun field =>
      headers.any fun header => includes header field
    if hasBillingFields then { type := "billing", valid := true }
    else { type := "unknown", valid := false }

/-- The `analyze-billing-csv` handler of `main.js`, lines 63-72, on the rows
that `processCSV` read from the file: the `type` it returns. -/
def analyzeBillingCsv (data : List Row) : Str :=
  (validateBillingData (some data)).type

/-- Initial value of `billingType` in `renderer.js`, line 4. -/
def initialBillingType : Str := "statement"

/-- Lines 74-78 of `renderer.js`: the `billingType` stored after the billing
file was analysed. -/
def billingTypeAfterAnalysis (data : List Row) : Str := analyzeBillingCsv data

/-- Lines 169-174 of `renderer.js`: the button text of `updateProcessButton`. -/
def buttonText (billingType : Str) (emailToggleEnabled : Bool) : Str :=
  if billingType = "statement" then
    (if emailToggleEnabled then "Generate Statements & Email Drafts" else "Generate Statements")
  else
    (if emailToggleEnabled then "Generate SuperBills & Email Drafts" else "Generate SuperBills")

/-- A billing file with a `Due` column and no `Paid` column. -/
def dueFile : List Row := [[("Patient", "Jane Doe"), ("Due", "150.00"), ("Date", "2024-01-15")]]

/-- A billing file with a `Paid` column. -/
def paidFile : List Row := [[("Patient", "Jane Doe"), ("Paid", "150.00"), ("Date", "2024-01-15")]]

/-- The canonical form of the values of `parseFloat` that the model computes:
the significant digits are at most 15 decimal digits without a leading or a
trailing `0`, and zero is written with no digit, no sign and the point at
position 0. -/
def Canonical : JSNumber → Prop
  | JSNumber.NaN => True
  | JSNumber.finite negative sig n =>
    (∀ c ∈ sig, c.isDigit = true) ∧ sig.head? ≠ some '0' ∧ sig.getLast? ≠ some '0' ∧
    (sig = [] → negative = false ∧ n = 0) ∧ sig.length ≤ 15
  | JSNumber.unrounded _ _ _ => True

/-- A record holding a charge of one hundred-millionth and a due amount of
ten to the power 21. -/
def extremeRecord : Row := [("Charge", "0.00000001"), ("Due", "1000000000000000000000")]

/-- A record holding a charge of 21 digits `9` and a due amount of `1` followed
by 400 digits `0`. -/
def unroundedRecord : Row :=
  [("Charge", "999999999999999999999"), ("Due", '1' :: List.replicate 400 '0')]

/-! ## `main.js`: `sendProgress` -/

/-- One call `sendProgress(percentage, label)` together with the value that
`Date.now()` returns inside it (milliseconds since the epoch). -/
structure ProgressCall where
  now : Int
  percentage : Int
  label : Str
deriving DecidableEq, Repr

/-- Lines 78-85 of `main.js`: one call of `sendProgress` in the state
`lastProgressTime`; gives the new `lastProgressTime` and whether the
`progress-update` event was sent. -/
def sendProgress (lastProgressTime : Int) (call : ProgressCall) : Int × Bool :=
  if call.now - lastProgressTime ≥ 100 then (call.now, true)
  else (lastProgressTime, false)

/-- The calls of `sendProgress` made in a row, from the state
`lastProgressTime`: each call with the flag saying whether its event was
sent. -/
def progressRun (lastProgressTime : Int) : List ProgressCall → List (ProgressCall × Bool)
  | [] => []
  | call :: rest =>
    (call, (sendProgress lastProgressTime call).2) ::
      progressRun (sendProgress lastProgressTime call).1 rest

/-- The calls of one `process-files` run: `lastProgressTime` starts at 0
(line 77). -/
def processFilesProgress (calls : List ProgressCall) : List (ProgressCall × Bool) :=
  progressRun 0 calls

/-- The calls of a trace whose event was sent, in order. -/
def emittedCalls (trace : List (ProgressCall × Bool)) : List ProgressCall :=
  (trace.filter fun entry => entry.2).map fun entry => entry.1

/-- The clock reading of the last call of the trace whose event was sent, and
`initial` when no event was sent. -/
def lastEmittedTime (initial : Int) (trace : List (ProgressCall × Bool)) : Int :=
  trace.foldl (fun t entry => if entry.2 then entry.1.now else t) initial

/-- Calls of a run at the clock readings 1000, 1050, 1099, 1100, 1150, 1200
(counted from an epoch reading of 1 700 000 000 000 ms). -/
def sampleCalls : List ProgressCall :=
  [⟨1700000001000, 10, "Parsing CSV files..."⟩, ⟨1700000001050, 30, "Generating statements..."⟩,
   ⟨1700000001099, 70, "Creating email drafts..."⟩, ⟨1700000001100, 70, "Creating email drafts..."⟩,
   ⟨1700000001150, 82, "Creating email draft for Jane Doe..."⟩,
   ⟨1700000001200, 95, "Finalizing..."⟩]

/-- Two rows without first or last name, with different whole names and the
same date. -/
def annRow : Row := [("Patient", "Ann Lee"), ("Due", "10.00"), ("Date", "2024-01-15")]

/-- The second row without first or last name. -/
def bobRow : Row := [("Name", "Bob Ray"), ("Charge", "20.00"), ("Date", "2024-01-15")]

/-- The text `field` stands in `row` from column `col` on, columns counted in
UTF-16 code units. -/
def FieldAt (row : Str) (col : Nat) (field : Str) : Prop :=
  ∃ pre post, row = pre ++ field ++ post ∧ utf16Length pre = col

/-- A row whose service code holds a line feed. -/
def lineFeedRow : Row :=
  [("FirstName", "Jane"), ("LastName", "Doe"), ("CPT", "a\nb"), ("Due", "150.00"),
   ("Date", "2024-01-15")]

/-! ## Lemmas on strings -/

theorem includes_iff_block (s pat : Str) : includes s pat = true ↔ pat <:+: s := by
  induction s with
  | nil => simp [includes, List.isPrefixOf_iff_prefix]
  | cons c t ih =>
    simp only [includes, Bool.or_eq_true, ih, List.isPrefixOf_iff_prefix]
    exact List.infix_cons_iff.symm

theorem block_map_iff (f : Char → Char) (s pat : Str) :
    pat <:+: s.map f ↔ ∃ pre w post, s = pre ++ w ++ post ∧ w.map f = pat := by
  constructor
  · rintro ⟨a, b, h⟩
    obtain ⟨l₁, post, rfl, h₁, hpost⟩ := List.map_eq_append_iff.mp h.symm
    obtain ⟨pre, w, rfl, _, hw⟩ := List.map_eq_append_iff.mp h₁
    exact ⟨pre, w, post, rfl, hw⟩
  · rintro ⟨pre, w, post, rfl, rfl⟩
    exact ⟨pre.map f, post.map f, by simp⟩

theorem includes_toLowerCase_iff (header word : Str) :
    includes (toLowerCase header) word = true ↔ ContainsAnyCase header word := by
  rw [includes_iff_block]
  exact block_map_iff Char.toLower header word

theorem no_header_of_any (record : Row) (word : Str)
    (h : (keys record).any (fun header => includes (toLowerCase header) word) = false) :
    ∀ header ∈ keys record, ¬ ContainsAnyCase header word := by
  intro header hmem hc
  have ht : (keys record).any (fun header => includes (toLowerCase header) word) = true :=
    List.any_eq_true.mpr ⟨header, hmem, (includes_toLowerCase_iff header word).mpr hc⟩
  rw [h] at ht
  exact Bool.false_ne_true ht

/-! ## Lemmas on the row loop -/

theorem forEachRecord_eq (env : Env) (documentType : Str) (emailData : Option (List Row))
    (rows : List Row) (index : Nat) (patients : List Patient) :
    forEachRecord env documentType emailData rows index patients =
      patients ++ forEachRecord env documentType emailData rows index [] := by
  induction rows generalizing index patients with
  | nil => simp [forEachRecord]
  | cons r rs ih =>
    simp only [forEachRecord, List.nil_append]
    rw [ih (index + 1) (patients ++ _), ih (index + 1) [_], List.append_assoc]

theorem forEachRecord_cons (env : Env) (documentType : Str) (emailData : Option (List Row))
    (r : Row) (rs : List Row) (index : Nat) :
    forEachRecord env documentType emailData (r :: rs) index [] =
      buildPatient env documentType emailData r index ::
        forEachRecord env documentType emailData rs (index + 1) [] := by
  simp only [forEachRecord, List.nil_append]
  rw [forEachRecord_eq]
  rfl

theorem forEachRecord_length (env : Env) (documentType : Str) (emailData : Option (List Row))
    (rows : List Row) (index : Nat) :
    (forEachRecord env documentType emailData rows index []).length = rows.length := by
  induction rows generalizing index with
  | nil => rfl
  | cons r rs ih => rw [forEachRecord_cons, List.length_cons, ih, List.length_cons]

theorem forEachRecord_getElem? (env : Env) (documentType : Str)
    (emailData : Option (List Row)) (rows : List Row) (index i : Nat) :
    (forEachRecord env documentType emailData rows index [])[i]? =
      rows[i]?.map fun record => buildPatient env documentType emailData record (index + i) := by
  induction rows generalizing index i with
  | nil => simp [forEachRecord]
  | cons r rs ih =>
    rw [forEachRecord_cons]
    cases i with
    | zero => simp
    | succ k =>
      simp only [List.getElem?_cons_succ]
      rw [ih (index + 1) k]
      congr 1
      funext record
      congr 1
      omega

theorem forEachRecord_documentType (env : Env) (documentType : Str)
    (emailData : Option (List Row)) (rows : List Row) (index : Nat) (p : Patient)
    (hp : p ∈ forEachRecord env documentType emailData rows index []) :
    p.documentType = documentType := by
  induction rows generalizing index with
  | nil => simp [forEachRecord] at hp
  | cons r rs ih =>
    rw [forEachRecord_cons] at hp
    rcases List.mem_cons.mp hp with h | h
    · rw [h]; rfl
    · exact ih (index + 1) h

theorem determineDocumentType_paid (first : Row) (rest : List Row)
    (h : ∃ header ∈ keys first, ContainsAnyCase header "paid") :
    determineDocumentType (first :: rest) = "SuperBill" := by
  obtain ⟨header, hmem, hc⟩ := h
  have hany : (keys first).any (fun header => includes (toLowerCase header) "paid") = true :=
    List.any_eq_true.mpr ⟨header, hmem, (includes_toLowerCase_iff header _).mpr hc⟩
  simp only [determineDocumentType, hany, if_true]

theorem determineDocumentType_not_paid (billingData : List Row)
    (h : ∀ first ∈ billingData.head?, ∀ header ∈ keys first, ¬ ContainsAnyCase header "paid") :
    determineDocumentType billingData = "Statement" := by
  cases billingData with
  | nil => rfl
  | cons first rest =>
    have hany : (keys first).any (fun header => includes (toLowerCase header) "paid") = false := by
      rw [Bool.eq_false_iff]
      intro ht
      obtain ⟨header, hmem, hinc⟩ := List.any_eq_true.mp ht
      exact h first (by simp) header hmem ((includes_toLowerCase_iff header _).mp hinc)
    simp only [determineDocumentType, hany]
    simp

/-! ## Document type (C1, C2) -/

/-- C1: when some header of the first billing row contains "paid" in any
letter case, every patient document produced by `processOutputDocsFormat` has
document type `SuperBill`, whatever the other headers are. -/
theorem paid_header_gives_superbill (env : Env) (first : Row) (rest : List Row)
    (emailData : Option (List Row))
    (h : ∃ header ∈ keys first, ContainsAnyCase header "paid") :
    ∀ p ∈ (processOutputDocsFormat env (first :: rest) emailData).patients,
      p.documentType = "SuperBill" := by
  intro p hp
  have := forEachRecord_documentType env _ emailData (first :: rest) 0 p hp
  rw [this, determineDocumentType_paid first rest h]

/-- Instance of C1: the headers `Amount Due` and `Amount PAID` together give a
superbill. -/
theorem paid_header_gives_superbill_witness :
    (∃ header ∈ keys paidAndDueRow, ContainsAnyCase header "paid") ∧
    (∃ header ∈ keys paidAndDueRow, ContainsAnyCase header "due") ∧
    ∀ p ∈ (processOutputDocsFormat sampleEnv [paidAndDueRow, janeDueRow] none).patients,
      p.documentType = "SuperBill" :=
  have hpaid : ∃ header ∈ keys paidAndDueRow, ContainsAnyCase header "paid" :=
    ⟨"Amount PAID", by decide, "Amount ", "PAID", "", by decide, by decide⟩
  ⟨hpaid, ⟨"Amount Due", by decide, "Amount ", "Due", "", by decide, by decide⟩,
    paid_header_gives_superbill sampleEnv paidAndDueRow [janeDueRow] none hpaid⟩

/-- C2: when no header of the first billing row contains "paid" in any letter
case, the classification is `Statement` and every patient document produced
has document type `Statement`, with or without a "due" header; for empty
billing data the classification is `Statement` and no patient document is
produced. -/
theorem no_paid_header_gives_statement (env : Env) (billingData : List Row)
    (emailData : Option (List Row))
    (h : ∀ first ∈ billingData.head?, ∀ header ∈ keys first, ¬ ContainsAnyCase header "paid") :
    determineDocumentType billingData = "Statement" ∧
    (∀ p ∈ (processOutputDocsFormat env billingData emailData).patients,
      p.documentType = "Statement") ∧
    determineDocumentType [] = "Statement" ∧
    (processOutputDocsFormat env [] emailData).patients = [] ∧
    (processOutputDocsFormat env [] emailData).totalProcessed = 0 := by
  refine ⟨determineDocumentType_not_paid billingData h, ?_, rfl, rfl, rfl⟩
  intro p hp
  have := forEachRecord_documentType env _ emailData billingData 0 p hp
  rw [this, determineDocumentType_not_paid billingData h]

/-- Instance of C2: a first row with a `Due` header and a first row with
neither `Due` nor `Paid` both give statements. -/
theorem no_paid_header_gives_statement_witness :
    (∃ header ∈ keys janeDueRow, ContainsAnyCase header "due") ∧
    (∀ header ∈ keys chargeOnlyRow, ¬ ContainsAnyCase header "due") ∧
    (∀ p ∈ (processOutputDocsFormat sampleEnv [janeDueRow] none).patients,
      p.documentType = "Statement") ∧
    (∀ p ∈ (processOutputDocsFormat sampleEnv [chargeOnlyRow] none).patients,
      p.documentType = "Statement") :=
  ⟨⟨"Due", by decide, "", "Due", "", by decide, by decide⟩,
    no_header_of_any chargeOnlyRow "due" (by decide),
    (no_paid_header_gives_statement sampleEnv [janeDueRow] none
      (fun first hfirst => by
        cases Option.some.inj hfirst
        exact no_header_of_any janeDueRow "paid" (by decide))).2.1,
    (no_paid_header_gives_statement sampleEnv [chargeOnlyRow] none
      (fun first hfirst => by
        cases Option.some.inj hfirst
        exact no_header_of_any chargeOnlyRow "paid" (by decide))).2.1⟩

/-! ## One document per row (C3) -/

/-- C3: `processOutputDocsFormat` produces one patient document per input row,
in row order: the patients list is as long as the billing data,
`totalProcessed` is that length, and the patient at position `i` is the one
built from the row at position `i`, with `i` as its index. -/
theorem one_document_per_row (env : Env) (billingData : List Row)
    (emailData : Option (List Row)) :
    (processOutputDocsFormat env billingData emailData).patients.length = billingData.length ∧
    (processOutputDocsFormat env billingData emailData).totalProcessed = billingData.length ∧
    ∀ i : Nat, (processOutputDocsFormat env billingData emailData).patients[i]? =
      billingData[i]?.map fun record =>
        buildPatient env (determineDocumentType billingData) emailData record i := by
  refine ⟨forEachRecord_length _ _ _ _ _, forEachRecord_length _ _ _ _ _, fun i => ?_⟩
  have := forEachRecord_getElem? env (determineDocumentType billingData) emailData billingData 0 i
  simpa [processOutputDocsFormat] using this

/-! ## Patient name (C4) -/

theorem trim_eq_nil_iff (s : Str) : trim s = [] ↔ ∀ c ∈ s, isWhiteSpace c = true := by
  unfold trim
  rw [List.reverse_eq_nil_iff, List.dropWhile_eq_nil_iff]
  constructor
  · intro h
    have hnil : s.dropWhile isWhiteSpace = [] := by
      by_contra hne
      have hhead := List.head_dropWhile_not isWhiteSpace s hne
      have := h _ (List.mem_reverse.mpr (List.head_mem hne))
      rw [this] at hhead
      exact Bool.noConfusion hhead
    exact List.dropWhile_eq_nil_iff.mp hnil
  · intro h x hx
    exact h x ((List.dropWhile_sublist _).subset (List.mem_reverse.mp hx))

theorem orElse_some_trim (t d : Str) : orElse (some t) d = if t ≠ [] then t else d := by
  cases t <;> simp [orElse]

theorem orElse_firstNonEmpty (record : Row) (k : Str) (ks : List Str) (d : Str) :
    orElse (getProp record k) ((firstNonEmpty record ks).getD d) =
      (firstNonEmpty record (k :: ks)).getD d := by
  rcases hget : getProp record k with _ | (_ | ⟨c, cs⟩) <;>
    simp [orElse, firstNonEmpty, hget]

theorem resolveFullName_eq (record : Row) (index : Nat) :
    resolveFullName record index =
      if trim (resolveFirstName record ++ " " ++ resolveLastName record) ≠ [] then
        trim (resolveFirstName record ++ " " ++ resolveLastName record)
      else
        (firstNonEmpty record ["Patient", "patient", "Name", "name"]).getD
          ("Patient_" ++ natToStr (index + 1)) := by
  unfold resolveFullName
  rw [orElse_some_trim]
  congr 1
  rw [← orElse_firstNonEmpty, ← orElse_firstNonEmpty, ← orElse_firstNonEmpty,
    ← orElse_firstNonEmpty]
  rfl

/-- C4, as stated, fails: the row `blankFirstNameRow` resolves the first name
to a blank, so first and last name are not both empty, yet the patient's name
is the whole-name field `Bob Ray` and not the trimmed composition (which is
empty). -/
theorem name_not_trimmed_composition_counterexample :
    ¬ (resolveFirstName blankFirstNameRow = [] ∧ resolveLastName blankFirstNameRow = []) ∧
    (processOutputDocsFormat sampleEnv [blankFirstNameRow] none).patients.map Patient.name =
      ["Bob Ray".toList] ∧
    (processOutputDocsFormat sampleEnv [blankFirstNameRow] none).patients.map Patient.name ≠
      [trim (resolveFirstName blankFirstNameRow ++ " " ++ resolveLastName blankFirstNameRow)] := by
  decide

/-- C4, amended: the patient's name at 0-based position `i` is the trimmed
"{firstName} {lastName}" when that trimmed text is non-empty, which is the
case exactly when the resolved first or last name has a character that is not
white space; otherwise it is the first non-empty whole-name field among
Patient, patient, Name, name; and if there is none it is "Patient_{i+1}",
`i` counting all input rows (an unnamed row at index 2 is `Patient_3`). -/
theorem patient_name_resolution (env : Env) (billingData : List Row)
    (emailData : Option (List Row)) :
    (∀ i : Nat,
      ((processOutputDocsFormat env billingData emailData).patients[i]?).map Patient.name =
        billingData[i]?.map fun record =>
          if trim (resolveFirstName record ++ " " ++ resolveLastName record) ≠ [] then
            trim (resolveFirstName record ++ " " ++ resolveLastName record)
          else
            (firstNonEmpty record ["Patient", "patient", "Name", "name"]).getD
              ("Patient_" ++ natToStr (i + 1))) ∧
    (∀ record : Row,
      trim (resolveFirstName record ++ " " ++ resolveLastName record) ≠ [] ↔
        (∃ c ∈ resolveFirstName record, isWhiteSpace c = false) ∨
        (∃ c ∈ resolveLastName record, isWhiteSpace c = false)) ∧
    ((processOutputDocsFormat env [janeDueRow, chargeOnlyRow, unnamedRow] emailData).patients.map
      Patient.name = ["Jane Doe".toList, "Bob Ray".toList, "Patient_3".toList]) := by
  refine ⟨fun i => ?_, fun record => ?_, ?_⟩
  · have h := forEachRecord_getElem? env (determineDocumentType billingData) emailData
      billingData 0 i
    simp only [processOutputDocsFormat, h, Option.map_map]
    congr 1
    funext record
    simp only [Function.comp, buildPatient, Nat.zero_add]
    exact resolveFullName_eq record i
  · rw [Ne, trim_eq_nil_iff]
    constructor
    · intro h
      by_contra hcon
      apply h
      intro c hc
      simp only [List.mem_append, not_or, not_exists, not_and, Bool.not_eq_false] at hcon hc
      rcases hc with (hc | hc) | hc
      · exact hcon.1 c hc
      · have : c = ' ' := by simpa using hc
        subst this
        decide
      · exact hcon.2 c hc
    · rintro (⟨c, hc, hws⟩ | ⟨c, hc, hws⟩) h
      · have := h c (by simp [hc])
        rw [hws] at this
        exact Bool.noConfusion this
      · have := h c (by simp [hc])
        rw [hws] at this
        exact Bool.noConfusion this
  · simp only [processOutputDocsFormat, forEachRecord, List.nil_append, List.cons_append,
      List.map_cons, List.map_nil, buildPatient]
    decide

/-! ## Identity matching (C5, C6) -/

theorem toLowerCase_eq_nil_iff (s : Str) : toLowerCase s = [] ↔ s = [] := by
  simp [toLowerCase]

theorem orElse_ne_nil (a : Option Str) (d : Str) (hd : d ≠ []) : orElse a d ≠ [] := by
  rcases a with _ | (_ | ⟨c, cs⟩) <;> simp [orElse, hd]

theorem resolveFullName_ne_nil (record : Row) (index : Nat) :
    resolveFullName record index ≠ [] := by
  unfold resolveFullName
  iterate 5 apply orElse_ne_nil
  simp

theorem fieldMatches_iff (lowerCase : Str → Str) (field : Option Str) (fullName : Str) :
    fieldMatches lowerCase field fullName = true ↔
      ∃ v, field = some v ∧ v ≠ [] ∧ lowerCase v = lowerCase fullName := by
  rcases field with _ | (_ | ⟨c, cs⟩) <;> simp [fieldMatches]

theorem composedMatches_iff (lowerCase : Str → Str) (first last : Option Str)
    (fullName : Str) :
    composedMatches lowerCase first last fullName = true ↔
      ∃ f l, first = some f ∧ last = some l ∧ f ≠ [] ∧ l ≠ [] ∧
        lowerCase (f ++ " " ++ l) = lowerCase fullName := by
  rcases first with _ | (_ | ⟨c, cs⟩) <;> rcases last with _ | (_ | ⟨d, ds⟩) <;>
    simp [composedMatches]

theorem rosterMatches_iff (lowerCase : Str → Str) (fullName : Str) (e : Row) :
    rosterMatches lowerCase fullName e = true ↔ MatchRule lowerCase fullName e := by
  simp only [rosterMatches, Bool.or_eq_true, fieldMatches_iff, composedMatches_iff,
    MatchRule, wholeNameFields, List.mem_cons, List.mem_singleton, List.not_mem_nil, or_false,
    exists_eq_or_imp, exists_eq_left, or_assoc]

theorem find?_first {α : Type} (q : α → Bool) (l : List α) (j : Nat) (e : α)
    (he : l[j]? = some e) (hq : q e = true)
    (hfirst : ∀ j' e', j' < j → l[j']? = some e' → q e' = false) :
    l.find? q = some e := by
  induction l generalizing j with
  | nil => simp at he
  | cons a t ih =>
    cases j with
    | zero =>
      simp only [List.getElem?_cons_zero, Option.some.injEq] at he
      subst he
      simp [List.find?, hq]
    | succ k =>
      have ha : q a = false := hfirst 0 a (Nat.succ_pos k) (by simp)
      simp only [List.find?, ha]
      refine ih k (by simpa using he) fun j' e' hj' he' => ?_
      exact hfirst (j' + 1) e' (Nat.succ_lt_succ hj') (by simpa using he')

theorem patient_of_getElem? (env : Env) (billingData : List Row)
    (emailData : Option (List Row)) (i : Nat) (p : Patient)
    (hp : (processOutputDocsFormat env billingData emailData).patients[i]? = some p) :
    ∃ record, billingData[i]? = some record ∧
      p = buildPatient env (determineDocumentType billingData) emailData record i := by
  have h := forEachRecord_getElem? env (determineDocumentType billingData) emailData
    billingData 0 i
  simp only [processOutputDocsFormat] at hp
  rw [h] at hp
  rcases hrow : billingData[i]? with _ | record
  · rw [hrow] at hp; simp at hp
  · rw [hrow] at hp
    refine ⟨record, rfl, ?_⟩
    simpa using hp.symm

/-- C5, as stated, fails: the patient named ` Doe` and the roster row with an
empty `First Name` and `Last Name` `Doe` satisfy the stated rule (the
composition "{First Name} {Last Name}" is ` Doe`), the row has an email, and
the email resolved for the patient is empty. -/
theorem stated_rule_counterexample :
    (processOutputDocsFormat sampleEnv [leadingBlankRow] (some [noFirstNameEntry])).patients.map
      (fun p => (p.name, p.email)) = [(" Doe".toList, [])] ∧
    StatedMatchRule sampleEnv.lowerCase " Doe" noFirstNameEntry ∧
    rosterEmail noFirstNameEntry = "doe@example.com".toList :=
  ⟨by decide, Or.inr ⟨[], "Doe", by decide, by decide, by decide⟩, by decide⟩

/-- C5, amended: the email resolved for a patient is the email of the
lowest-index roster row that satisfies a match rule (a non-empty Patient,
Name, patient or name field equal to the patient's full name ignoring letter
case, or, when First Name and Last Name are both non-empty,
"{First Name} {Last Name}" equal to it ignoring letter case, letter case being
ignored by the engine's lower-casing); when no row satisfies a rule, or no
roster is given, the email is the empty string. -/
theorem email_from_first_matching_row (env : Env) (billingData : List Row)
    (emailData : Option (List Row)) (i : Nat) (p : Patient)
    (hp : (processOutputDocsFormat env billingData emailData).patients[i]? = some p) :
    (emailData = none → p.email = []) ∧
    ∀ roster, emailData = some roster →
      (∀ (j : Nat) (e : Row), roster[j]? = some e → MatchRule env.lowerCase p.name e →
        (∀ (j' : Nat) (e' : Row), j' < j → roster[j']? = some e' →
          ¬ MatchRule env.lowerCase p.name e') →
        p.email = rosterEmail e) ∧
      ((∀ e ∈ roster, ¬ MatchRule env.lowerCase p.name e) → p.email = []) := by
  obtain ⟨record, -, rfl⟩ := patient_of_getElem? env billingData emailData i p hp
  refine ⟨fun h => by subst h; rfl, fun roster h => ?_⟩
  subst h
  simp only [buildPatient, resolveEmail]
  constructor
  · intro j e he hm hfirst
    have hfind : roster.find? (rosterMatches env.lowerCase (resolveFullName record i)) =
        some e := by
      refine find?_first _ roster j e he ((rosterMatches_iff _ _ e).mpr hm) ?_
      intro j' e' hj' he'
      rw [Bool.eq_false_iff]
      exact fun ht => hfirst j' e' hj' he' ((rosterMatches_iff _ _ e').mp ht)
    rw [hfind]
  · intro hnone
    have hfind : roster.find? (rosterMatches env.lowerCase (resolveFullName record i)) =
        none := by
      rw [List.find?_eq_none]
      intro e he ht
      exact hnone e he ((rosterMatches_iff _ _ e).mp ht)
    rw [hfind]
    rfl

/-- Instance of C5: both rows of `twoMatchRoster` match the patient built from
`janeDueRow`, and the email is the first row's. -/
theorem email_from_first_matching_row_witness :
    (∀ e ∈ twoMatchRoster, MatchRule sampleEnv.lowerCase "Jane Doe" e) ∧
    (buildPatient sampleEnv "Statement" (some twoMatchRoster) janeDueRow 0).email =
      rosterEmail [("Name", "jane doe"), ("Email", "first@example.com")] ∧
    rosterEmail [("Name", "jane doe"), ("Email", "first@example.com")] =
      "first@example.com".toList :=
  ⟨fun e he => (rosterMatches_iff _ _ e).mp
      (List.all_eq_true.mp
        (by decide : twoMatchRoster.all (rosterMatches sampleEnv.lowerCase "Jane Doe") = true)
        e he),
    ((email_from_first_matching_row sampleEnv [janeDueRow] (some twoMatchRoster) 0
      (buildPatient sampleEnv "Statement" (some twoMatchRoster) janeDueRow 0) rfl).2
        twoMatchRoster rfl).1 0 _ rfl
      ((rosterMatches_iff _ _ _).mp (by decide))
      (fun j' _ hj' _ => absurd hj' (Nat.not_lt_zero j')),
    by decide⟩

/-- Letter case is ignored on accented letters too: with the lower-casing of
Latin-1 text the upper-case roster row `JOSÉ GARCÍA` matches the patient
`José García`, and being the first matching row it supplies the email. -/
theorem accented_name_first_match :
    (processOutputDocsFormat latin1Env [accentedNameRow] (some accentedRoster)).patients.map
      (fun p => (p.name, p.email)) = [("José García".toList, "first@example.com".toList)] ∧
    accentedRoster.map (rosterMatches latin1Env.lowerCase "José García") = [true, true] := by
  decide

/-- C6, as stated, fails: the roster name ` jane doe ` equals the patient name
`Jane Doe` up to letter case and surrounding white space, yet the row does not
match and the email resolved for the patient is empty. -/
theorem trimmed_match_counterexample :
    sampleEnv.lowerCase (trim " jane doe ") = sampleEnv.lowerCase (trim "Jane Doe") ∧
    getProp paddedNameEntry "Name" = some " jane doe ".toList ∧
    rosterMatches sampleEnv.lowerCase "Jane Doe" paddedNameEntry = false ∧
    (processOutputDocsFormat sampleEnv [janeDueRow] (some [paddedNameEntry])).patients.map
      (fun p => (p.name, p.email)) = [("Jane Doe".toList, [])] := by
  decide

/-- C6, amended: identity matching compares names ignoring letter case (by the
engine's lower-casing) but exactly, without trimming: a roster row whose
non-empty Patient, Name, patient or name field equals the full name up to
letter case matches, and its email is resolved for the patient when no
earlier row matches; and a row matches only through such an equality or
through its composed first and last name, so a name that differs by
surrounding white space does not match. -/
theorem case_insensitive_exact_match (lowerCase : Str → Str) (fullName : Str) (e : Row)
    (k v : Str) (hk : k ∈ wholeNameFields) (hv : getProp e k = some v) (hne : v ≠ [])
    (heq : lowerCase v = lowerCase fullName) :
    rosterMatches lowerCase fullName e = true ∧
    (∀ before after : List Row, (∀ e' ∈ before, rosterMatches lowerCase fullName e' = false) →
      resolveEmail lowerCase (some (before ++ e :: after)) fullName = rosterEmail e) ∧
    (∀ e' : Row, rosterMatches lowerCase fullName e' = true →
      MatchRule lowerCase fullName e') := by
  have hmatch : rosterMatches lowerCase fullName e = true :=
    (rosterMatches_iff lowerCase fullName e).mpr (Or.inl ⟨k, hk, v, hv, hne, heq⟩)
  refine ⟨hmatch, fun before after hbefore => ?_,
    fun e' h => (rosterMatches_iff _ _ e').mp h⟩
  have hfind : (before ++ e :: after).find? (rosterMatches lowerCase fullName) = some e := by
    have hnone : before.find? (rosterMatches lowerCase fullName) = none := by
      rw [List.find?_eq_none]
      intro e' he' ht
      rw [hbefore e' he'] at ht
      exact Bool.false_ne_true ht
    rw [List.find?_append, hnone]
    simp [List.find?, hmatch]
  simp only [resolveEmail, hfind]

/-- Instance of C6: the roster name `JANE DOE` matches the patient `Jane Doe`
and supplies the email, also behind a row for somebody else. -/
theorem case_insensitive_exact_match_witness :
    rosterMatches sampleEnv.lowerCase "Jane Doe" upperNameEntry = true ∧
    resolveEmail sampleEnv.lowerCase (some ([otherEntry] ++ upperNameEntry :: [])) "Jane Doe" =
      rosterEmail upperNameEntry :=
  have h := case_insensitive_exact_match sampleEnv.lowerCase "Jane Doe" upperNameEntry "Name"
    "JANE DOE" (by decide) (by decide) (by decide) (by decide)
  ⟨h.1, h.2.1 [otherEntry] [] (by decide)⟩

/-! ## Drafts partition the patients (C7) -/

theorem hasNoEmail_eq_emailBlank (patient : Row) : hasNoEmail patient = emailBlank patient := by
  unfold hasNoEmail emailBlank
  rcases getProp patient "email" with _ | (_ | ⟨c, cs⟩)
  · rfl
  · rfl
  · have h := trim_eq_nil_iff (c :: cs)
    by_cases ht : trim (c :: cs) = []
    · simp only [ht, decide_True]
      exact (List.all_eq_true.mpr (h.mp ht)).symm
    · simp only [ht, decide_False]
      symm
      rw [Bool.eq_false_iff]
      exact fun hall => ht (h.mpr (List.all_eq_true.mp hall))

theorem draftLoop_eq (emailTemplate emailSubject : Str) (patients : List Row)
    (without : List Row) (withEmails : List EmailDraft) :
    draftLoop emailTemplate emailSubject patients without withEmails =
      (without ++ patients.filter emailBlank,
        withEmails ++ (patients.filter fun p => !emailBlank p).map
          (composeDraft emailTemplate emailSubject)) := by
  induction patients generalizing without withEmails with
  | nil => simp [draftLoop]
  | cons p ps ih =>
    unfold draftLoop
    rw [hasNoEmail_eq_emailBlank]
    by_cases hb : emailBlank p = true
    · simp [hb, ih]
    · simp only [Bool.not_eq_true] at hb
      simp [hb, ih]

theorem filter_length_add (q : Row → Bool) (l : List Row) :
    ((l.filter fun p => !q p).length) + (l.filter q).length = l.length := by
  induction l with
  | nil => rfl
  | cons a t ih =>
    by_cases h : q a = true
    · simp only [List.filter, h, Bool.not_true, List.length_cons]; omega
    · simp only [Bool.not_eq_true] at h
      simp only [List.filter, h, Bool.not_false, List.length_cons]; omega

theorem map_to_eq_filterMap (emailTemplate emailSubject : Str) (l : List Row) :
    ((l.filter fun p => !emailBlank p).map (composeDraft emailTemplate emailSubject)).map
        EmailDraft.to_ =
      (l.filter fun p => !emailBlank p).filterMap fun p => getProp p "email" := by
  induction l with
  | nil => rfl
  | cons a t ih =>
    by_cases h : emailBlank a = true
    · simpa [List.filter, h] using ih
    · simp only [Bool.not_eq_true] at h
      simp only [List.filter, h, Bool.not_false, List.map_cons]
      rcases hget : getProp a "email" with _ | e
      · unfold emailBlank at h
        rw [hget] at h
        exact Bool.noConfusion h
      · simp only [List.filterMap_cons, hget]
        rw [← ih]
        simp only [composeDraft, hget, toStringJS]

/-- C7: `generateEmailDrafts` partitions the patients: those whose email is
missing, empty or only white space are exactly the `patientsWithoutEmails`,
in order, and get no draft; every other patient gets one draft, in order,
addressed to the patient's own email; so `emailsSent` plus the number of
patients without email is the number of patients. -/
theorem drafts_partition_patients (patients : List Row) (emailTemplate emailSubject : Str) :
    (generateEmailDrafts patients emailTemplate emailSubject).patientsWithoutEmails =
      patients.filter emailBlank ∧
    (generateEmailDrafts patients emailTemplate emailSubject).drafts =
      (patients.filter fun p => !emailBlank p).map (composeDraft emailTemplate emailSubject) ∧
    (generateEmailDrafts patients emailTemplate emailSubject).drafts.map EmailDraft.to_ =
      ((patients.filter fun p => !emailBlank p).filterMap fun p => getProp p "email") ∧
    (generateEmailDrafts patients emailTemplate emailSubject).emailsSent =
      (generateEmailDrafts patients emailTemplate emailSubject).drafts.length ∧
    (generateEmailDrafts patients emailTemplate emailSubject).emailsSent +
      (generateEmailDrafts patients emailTemplate emailSubject).patientsWithoutEmails.length =
      patients.length := by
  have h := draftLoop_eq emailTemplate emailSubject patients [] []
  simp only [List.nil_append] at h
  have hw : (generateEmailDrafts patients emailTemplate emailSubject).patientsWithoutEmails =
      patients.filter emailBlank := by
    simp only [generateEmailDrafts, h]
  have hd : (generateEmailDrafts patients emailTemplate emailSubject).drafts =
      (patients.filter fun p => !emailBlank p).map (composeDraft emailTemplate emailSubject) := by
    simp only [generateEmailDrafts, h]
  have hs : (generateEmailDrafts patients emailTemplate emailSubject).emailsSent =
      (generateEmailDrafts patients emailTemplate emailSubject).drafts.length := by
    simp only [generateEmailDrafts, h]
  refine ⟨hw, hd, ?_, hs, ?_⟩
  · rw [hd]
    exact map_to_eq_filterMap _ _ _
  · rw [hs, hd, hw, List.length_map]
    exact filter_length_add emailBlank patients

/-! ## Template substitution (C8, C9, C10) -/

theorem getSubstitution_of_no_dollar (matched before after : Str) (v : Str)
    (hv : '$' ∉ v) : getSubstitution matched before after v = v := by
  induction v with
  | nil => rfl
  | cons c t ih =>
    have hc : c ≠ '$' := fun h => hv (by simp [h])
    have ht : '$' ∉ t := fun h => hv (List.mem_cons_of_mem _ h)
    rw [getSubstitution.eq_def]
    simp only [if_neg hc, ih ht]

theorem replaceGo_of_no_dollar (pat v : Str) (hv : '$' ∉ v) (skip : Nat) (pre s : Str) :
    replaceGo pat v skip pre s = literalReplaceGo pat v skip s := by
  induction s generalizing skip pre with
  | nil => cases skip <;> rfl
  | cons c t ih =>
    cases skip with
    | succ k => simp only [replaceGo, literalReplaceGo, ih]
    | zero =>
      simp only [replaceGo, literalReplaceGo, ih, getSubstitution_of_no_dollar _ _ _ v hv]

theorem replaceAll_of_no_dollar (pat v s : Str) (hv : '$' ∉ v) :
    replaceAll pat (some v) s = literalReplace pat v s :=
  replaceGo_of_no_dollar pat v hv 0 [] s

/-- The fallback from the balance to the amount: for a patient that has an
amount and no balance, or an empty one, the body is obtained by replacing
`{balance}` with the amount as the replace value, which is a literal
find-and-replace of every occurrence when the amount has no `$`; the template
"Dear {name}, you owe {balance}." with name `Jane Doe`, no balance and amount
`150.00` gives "Dear Jane Doe, you owe 150.00.". -/
theorem balance_falls_back_to_amount :
    (∀ (emailTemplate : Str) (patient : Row) (amount : Str),
      getProp patient "amount" = some amount →
      (getProp patient "balance" = none ∨ getProp patient "balance" = some []) →
      personalize emailTemplate patient =
        replaceAll "{balance}" (some amount)
          (replaceAll "{date}" (getProp patient "date")
            (replaceAll "{service}" (getProp patient "service")
              (replaceAll "{amount}" (some amount)
                (replaceAll "{name}" (getProp patient "name") emailTemplate)))) ∧
      ('$' ∉ amount →
        personalize emailTemplate patient =
          literalReplace "{balance}" amount
            (replaceAll "{date}" (getProp patient "date")
              (replaceAll "{service}" (getProp patient "service")
                (replaceAll "{amount}" (some amount)
                  (replaceAll "{name}" (getProp patient "name") emailTemplate)))))) ∧
    getProp janePatient "balance" = none ∧
    (generateEmailDrafts [janePatient] "Dear {name}, you owe {balance}." "Statement").drafts.map
      EmailDraft.body = ["Dear Jane Doe, you owe 150.00.".toList] := by
  refine ⟨fun emailTemplate patient amount ha hb => ?_, by decide, by decide⟩
  have hor : orElseOpt (getProp patient "balance") (getProp patient "amount") = some amount := by
    rcases hb with hb | hb <;> rw [hb, ha] <;> rfl
  have hbody : personalize emailTemplate patient =
      replaceAll "{balance}" (some amount)
        (replaceAll "{date}" (getProp patient "date")
          (replaceAll "{service}" (getProp patient "service")
            (replaceAll "{amount}" (some amount)
              (replaceAll "{name}" (getProp patient "name") emailTemplate)))) := by
    simp only [personalize]
    rw [hor, ha]
  exact ⟨hbody, fun hv => by rw [hbody, replaceAll_of_no_dollar _ _ _ hv]⟩

/-- Instance of the fallback: the patient `janePatient` has the amount `150.00`
and no balance, and `{balance}` is replaced by `150.00`. -/
theorem balance_falls_back_to_amount_witness :
    getProp janePatient "amount" = some "150.00".toList ∧
    getProp janePatient "balance" = none ∧
    personalize "Dear {name}, you owe {balance}." janePatient =
      literalReplace "{balance}" "150.00" "Dear Jane Doe, you owe {balance}." :=
  ⟨by decide, by decide,
    ((balance_falls_back_to_amount.1 "Dear {name}, you owe {balance}." janePatient "150.00"
      (by decide) (Or.inl (by decide))).2 (by decide)).trans (by decide)⟩

/-- C8 on the code: the patient `dollarAmountPatient` has the amount `$$20` and
no balance, and the body composed from "Dear {name}, you owe {balance}." is
"Dear Jane Doe, you owe $20.", where replacing every `{balance}` with the
amount gives "Dear Jane Doe, you owe $$20.": the amount is expanded as a
replacement pattern.  The example of the claim, whose amount `150.00` has no
`$`, gives "Dear Jane Doe, you owe 150.00.". -/
theorem balance_amount_is_expanded :
    getProp dollarAmountPatient "amount" = some "$$20".toList ∧
    getProp dollarAmountPatient "balance" = none ∧
    (generateEmailDrafts [dollarAmountPatient] "Dear {name}, you owe {balance}."
      "Statement").drafts.map EmailDraft.body = ["Dear Jane Doe, you owe $20.".toList] ∧
    literalReplace "{balance}" "$$20" (literalReplace "{name}" "Jane Doe"
      "Dear {name}, you owe {balance}.") = "Dear Jane Doe, you owe $$20.".toList ∧
    getProp janePatient "amount" = some "150.00".toList ∧
    getProp janePatient "balance" = none ∧
    (generateEmailDrafts [janePatient] "Dear {name}, you owe {balance}." "Statement").drafts.map
      EmailDraft.body = ["Dear Jane Doe, you owe 150.00.".toList] := by
  decide

/-- C9 on the code: a `$&` in the name is expanded to the matched placeholder
and a `$$` in the amount collapses to one `$`, in the body and in the
subject, where a literal find-and-replace keeps both; and a name that is
the text `{amount}` is itself replaced by the amount. -/
theorem dollar_sequences_are_expanded :
    (generateEmailDrafts [dollarPatient] "Dear {name}, you owe {amount}." "For {name}").drafts.map
      (fun d => (d.subject, d.body)) =
      [("For Ann {name} Lee".toList, "Dear Ann {name} Lee, you owe $20.".toList)] ∧
    literalReplace "{amount}" "$$20" (literalReplace "{name}" "Ann $& Lee"
      "Dear {name}, you owe {amount}.") = "Dear Ann $& Lee, you owe $$20.".toList ∧
    literalReplace "{name}" "Ann $& Lee" "For {name}" = "For Ann $& Lee".toList ∧
    (generateEmailDrafts [placeholderNamePatient] "Dear {name}, you owe {amount}."
      "For {name}").drafts.map EmailDraft.body = ["Dear 5, you owe 5.".toList] := by
  decide

theorem toObject_has_no_amount (p : Patient) :
    getProp p.toObject "amount" = none ∧ getProp p.toObject "service" = none ∧
    getProp p.toObject "balance" = none ∧ getProp p.toObject "name" = some p.name ∧
    getProp p.toObject "date" = some p.date ∧ getProp p.toObject "email" = some p.email := by
  exact ⟨rfl, rfl, rfl, rfl, rfl, rfl⟩

/-- C10 on the code: in the pipeline the patient built from a row with charge
`150.00` and service code `99213` has an email, and the draft composed for it
has `{amount}` and `{service}` replaced by the text `undefined`; no patient
object of the pipeline has an `amount` or a `service` property. -/
theorem pipeline_amount_is_undefined :
    (processOutputDocsFormat sampleEnv [janeChargeRow] (some janeRoster)).patients.map
      (fun p => (p.charge, p.cpt, p.email)) =
      [("150.00".toList, "99213".toList, "jane@example.com".toList)] ∧
    (processFiles sampleEnv [janeChargeRow] (some janeRoster)
      "Dear {name}, you owe {amount} for {service} on {date}." "Statement" true).map
      (fun r => r.drafts.map EmailDraft.body) =
      some ["Dear Jane Doe, you owe undefined for undefined on 2024-01-15.".toList] ∧
    ∀ p : Patient, getProp p.toObject "amount" = none ∧ getProp p.toObject "service" = none :=
  ⟨by decide, by decide, fun p => ⟨(toObject_has_no_amount p).1, (toObject_has_no_amount p).2.1⟩⟩

/-! ## Field resolution (C11) and the money fields (C12) -/

theorem firstNonEmpty_ne_nil (record : Row) (ks : List Str) (v : Str)
    (h : firstNonEmpty record ks = some v) : v ≠ [] := by
  induction ks with
  | nil => simp [firstNonEmpty] at h
  | cons k ks ih =>
    rcases hget : getProp record k with _ | (_ | ⟨c, cs⟩)
    · simp only [firstNonEmpty, hget] at h; exact ih h
    · simp only [firstNonEmpty, hget] at h; exact ih h
    · simp only [firstNonEmpty, hget, Option.some.injEq] at h
      rw [← h]; exact List.cons_ne_nil c cs

theorem firstNonEmpty_eq_none_iff (record : Row) (ks : List Str) :
    firstNonEmpty record ks = none ↔
      ∀ k ∈ ks, getProp record k = none ∨ getProp record k = some [] := by
  induction ks with
  | nil => simp [firstNonEmpty]
  | cons k ks ih =>
    rcases hget : getProp record k with _ | (_ | ⟨c, cs⟩) <;>
      simp [firstNonEmpty, hget, ih]

theorem getD_firstNonEmpty_eq_nil_iff (record : Row) (ks : List Str) :
    (firstNonEmpty record ks).getD [] = [] ↔
      ∀ k ∈ ks, getProp record k = none ∨ getProp record k = some [] := by
  rw [← firstNonEmpty_eq_none_iff]
  rcases h : firstNonEmpty record ks with _ | v
  · simp
  · simpa using firstNonEmpty_ne_nil record ks v h

theorem resolveCpt_eq (record : Row) :
    resolveCpt record = (firstNonEmpty record cptAliases).getD [] := by
  unfold resolveCpt cptAliases
  iterate 6 rw [← orElse_firstNonEmpty]
  rfl

theorem resolveCharge_eq (record : Row) :
    resolveCharge record = (firstNonEmpty record chargeAliases).getD "0.00" := by
  unfold resolveCharge chargeAliases
  iterate 6 rw [← orElse_firstNonEmpty]
  rfl

theorem resolveDue_eq (record : Row) :
    resolveDue record = (firstNonEmpty record dueAliases).getD (resolveCharge record) := by
  have hc : orElse (some (resolveCharge record)) "0.00" = resolveCharge record := by
    have hne : resolveCharge record ≠ [] := by
      unfold resolveCharge
      iterate 6 apply orElse_ne_nil
      decide
    rcases h : resolveCharge record with _ | ⟨c, cs⟩
    · exact absurd h hne
    · rfl
  unfold resolveDue dueAliases
  rw [hc]
  iterate 4 rw [← orElse_firstNonEmpty]
  rfl

/-- C11, as stated, fails: the row with `CPT` empty and `Service` equal to `X`
resolves the service code to `X`, not to the empty string, although `CPT`,
the first alias, is a key of the row. -/
theorem empty_alias_counterexample :
    getProp emptyCptRow "CPT" = some [] ∧
    resolveCpt emptyCptRow = "X".toList ∧
    (processOutputDocsFormat sampleEnv [emptyCptRow] none).patients.map Patient.cpt =
      ["X".toList] := by
  decide

/-- C11, amended: field resolution returns the value of the first alias, in
the fixed alias order, whose value in the row is non-empty, an empty-string
value counting as absent; it returns the default (the empty string for the
names, the diagnosis, the location and the service code, today's date for
the date) only if no alias has a non-empty value.  For ServiceCode a row with
CPT empty and Service `X` resolves to `X`. -/
theorem field_resolution_first_non_empty (env : Env) (documentType : Str)
    (emailData : Option (List Row)) (record : Row) (index : Nat) :
    (buildPatient env documentType emailData record index).firstName =
      (firstNonEmpty record firstNameAliases).getD [] ∧
    (buildPatient env documentType emailData record index).lastName =
      (firstNonEmpty record lastNameAliases).getD [] ∧
    (buildPatient env documentType emailData record index).diagnosis =
      (firstNonEmpty record diagnosisAliases).getD [] ∧
    (buildPatient env documentType emailData record index).location =
      (firstNonEmpty record locationAliases).getD [] ∧
    (buildPatient env documentType emailData record index).cpt =
      (firstNonEmpty record cptAliases).getD [] ∧
    (buildPatient env documentType emailData record index).date =
      (firstNonEmpty record dateAliases).getD env.todayISO ∧
    ((buildPatient env documentType emailData record index).cpt = [] ↔
      ∀ k ∈ cptAliases, getProp record k = none ∨ getProp record k = some []) ∧
    (buildPatient env documentType emailData emptyCptRow index).cpt = "X".toList := by
  refine ⟨?_, ?_, ?_, ?_, resolveCpt_eq record, ?_, ?_,
    (by decide : resolveCpt emptyCptRow = "X".toList)⟩
  · show resolveFirstName record = _
    unfold resolveFirstName firstNameAliases
    iterate 4 rw [← orElse_firstNonEmpty]
    rfl
  · show resolveLastName record = _
    unfold resolveLastName lastNameAliases
    iterate 4 rw [← orElse_firstNonEmpty]
    rfl
  · show resolveDiagnosis record = _
    unfold resolveDiagnosis diagnosisAliases
    iterate 4 rw [← orElse_firstNonEmpty]
    rfl
  · show resolveLocation record = _
    unfold resolveLocation locationAliases
    iterate 2 rw [← orElse_firstNonEmpty]
    rfl
  · show resolveDate env record = _
    unfold resolveDate dateAliases
    iterate 2 rw [← orElse_firstNonEmpty]
    rfl
  · show resolveCpt record = [] ↔ _
    rw [resolveCpt_eq, getD_firstNonEmpty_eq_nil_iff]

theorem firstNonEmpty_mem (record : Row) (ks : List Str) (v : Str)
    (h : firstNonEmpty record ks = some v) : ∃ k ∈ ks, getProp record k = some v := by
  induction ks with
  | nil => simp [firstNonEmpty] at h
  | cons k ks ih =>
    rcases hget : getProp record k with _ | (_ | ⟨c, cs⟩)
    · simp only [firstNonEmpty, hget] at h
      obtain ⟨k', hk', hv⟩ := ih h
      exact ⟨k', List.mem_cons_of_mem _ hk', hv⟩
    · simp only [firstNonEmpty, hget] at h
      obtain ⟨k', hk', hv⟩ := ih h
      exact ⟨k', List.mem_cons_of_mem _ hk', hv⟩
    · simp only [firstNonEmpty, hget, Option.some.injEq] at h
      exact ⟨k, List.mem_cons_self _ _, by rw [hget, h]⟩

/-- C12, as stated, fails: the charge cells `150`, `-20.00`, `$1,200.5` and
`abc` are stored as the charge (and, with no due cell, as the due) exactly as
written, and none of them is a non-negative decimal with two digits after the
point. -/
theorem raw_charge_counterexample :
    (processOutputDocsFormat sampleEnv rawChargeRows none).patients.map
      (fun p => (p.charge, p.due, isTwoDecimal p.charge, isTwoDecimal p.due)) =
      [("150".toList, "150".toList, false, false),
       ("-20.00".toList, "-20.00".toList, false, false),
       ("$1,200.5".toList, "$1,200.5".toList, false, false),
       ("abc".toList, "abc".toList, false, false)] := by
  decide

/-- C12, amended: for every billing row the charge is the text of the first
non-empty cell among Charge, charge, Amount, amount, Total, total, unchanged,
and `0.00` when there is none; the due is the text of the first non-empty cell
among Due, due, Amount Due, amount_due, unchanged, and the charge when there
is none.  The default `0.00` is a non-negative decimal with exactly two digits
after the point, and so are charge and due whenever every non-empty cell under
those aliases is one. -/
theorem money_fields_are_cell_text (env : Env) (billingData : List Row)
    (emailData : Option (List Row)) :
    (∀ i : Nat,
      ((processOutputDocsFormat env billingData emailData).patients[i]?).map
          (fun p => (p.charge, p.due)) =
        billingData[i]?.map fun record =>
          ((firstNonEmpty record chargeAliases).getD "0.00",
            (firstNonEmpty record dueAliases).getD
              ((firstNonEmpty record chargeAliases).getD "0.00"))) ∧
    isTwoDecimal "0.00" = true ∧
    (∀ record : Row,
      (∀ k ∈ chargeAliases ++ dueAliases, ∀ v, getProp record k = some v → v ≠ [] →
        isTwoDecimal v = true) →
      isTwoDecimal ((firstNonEmpty record chargeAliases).getD "0.00") = true ∧
      isTwoDecimal ((firstNonEmpty record dueAliases).getD
        ((firstNonEmpty record chargeAliases).getD "0.00")) = true) := by
  refine ⟨fun i => ?_, by decide, fun record hcells => ?_⟩
  · have h := forEachRecord_getElem? env (determineDocumentType billingData) emailData
      billingData 0 i
    simp only [processOutputDocsFormat, h, Option.map_map]
    congr 1
    funext record
    simp only [Function.comp, buildPatient, resolveDue_eq, resolveCharge_eq]
  · have hcharge : isTwoDecimal ((firstNonEmpty record chargeAliases).getD "0.00") = true := by
      rcases h : firstNonEmpty record chargeAliases with _ | v
      · decide
      · obtain ⟨k, hk, hv⟩ := firstNonEmpty_mem record _ v h
        exact hcells k (List.mem_append_left _ hk) v hv (firstNonEmpty_ne_nil record _ v h)
    refine ⟨hcharge, ?_⟩
    rcases h : firstNonEmpty record dueAliases with _ | v
    · exact hcharge
    · obtain ⟨k, hk, hv⟩ := firstNonEmpty_mem record _ v h
      exact hcells k (List.mem_append_right _ hk) v hv (firstNonEmpty_ne_nil record _ v h)

/-! ## Numeric coercion of `createPatientData` (C13, C14) -/

theorem takeWhile_isDigit_of_no_digit (s : Str) (h : ∀ c ∈ s, c.isDigit = false) :
    s.takeWhile Char.isDigit = [] := by
  cases s with
  | nil => rfl
  | cons c t => simp [List.takeWhile, h c (List.mem_cons_self _ _)]

theorem dropWhile_isDigit_of_no_digit (s : Str) (h : ∀ c ∈ s, c.isDigit = false) :
    s.dropWhile Char.isDigit = s := by
  cases s with
  | nil => rfl
  | cons c t => simp [List.dropWhile, h c (List.mem_cons_self _ _)]

theorem parseUnsigned_of_no_digit (negative : Bool) (s : Str)
    (h : ∀ c ∈ s, c.isDigit = false) : parseUnsigned negative s = JSNumber.NaN := by
  unfold parseUnsigned
  rw [takeWhile_isDigit_of_no_digit s h, dropWhile_isDigit_of_no_digit s h]
  apply if_pos
  refine ⟨rfl, ?_⟩
  split
  · next t =>
    exact takeWhile_isDigit_of_no_digit t fun c hc => h c (List.mem_cons_of_mem _ hc)
  · rfl

theorem parseFloat_of_no_digit (s : Str) (h : ∀ c ∈ s, c.isDigit = false) :
    parseFloat s = JSNumber.NaN := by
  unfold parseFloat
  split
  · next t => exact parseUnsigned_of_no_digit true t fun c hc => h c (List.mem_cons_of_mem _ hc)
  · exact parseUnsigned_of_no_digit false s h

theorem coerceAmount_of_no_digit (text : Str) (h : ∀ c ∈ text, c.isDigit = false) :
    coerceAmount text = JSNumber.NaN := by
  unfold coerceAmount stripNonNumeric
  exact parseFloat_of_no_digit _ fun c hc => h c (List.mem_filter.mp hc).1

/-- C13 on the code: for the record with charge cell `abc` and due cell `-`,
`createPatientData` computes NaN for the charge and for the payment, not 0;
so it does for every non-empty charge cell without a digit; only the empty
cell defaults to 0. -/
theorem unparsable_cell_is_NaN :
    (createPatientData "Jane" "Doe" [unparsableRecord, emptyAmountsRecord] none
      none).billingRecords.map (fun r => (r.charge, r.payment)) =
      [(JSNumber.NaN, JSNumber.NaN), (JSNumber.zero, JSNumber.zero)] ∧
    ∀ (record : Row) (c : Char) (cs : Str), getProp record "Charge" = some (c :: cs) →
      (∀ d ∈ c :: cs, d.isDigit = false) →
      (toBillingRecord record).charge = JSNumber.NaN :=
  ⟨by decide, fun record c cs hget hno => by
    simp only [toBillingRecord, hget, orElse]
    exact coerceAmount_of_no_digit _ hno⟩

/-! ## File names (C15, C16) -/

theorem fileName_eq (env : Env) (documentType : Str) (emailData : Option (List Row))
    (record : Row) (index : Nat) :
    (buildPatient env documentType emailData record index).fileName =
      resolveFirstName record ++ " " ++ resolveLastName record ++ " " ++ documentType ++ " " ++
        formatDate env (resolveDate env record) ++ ".txt" ∧
    (buildPatient env documentType emailData record index).pdfFileName =
      resolveFirstName record ++ " " ++ resolveLastName record ++ " " ++ documentType ++ " " ++
        formatDate env (resolveDate env record) ++ ".pdf" :=
  ⟨rfl, rfl⟩

/-- C15 on the code: on a machine west of UTC the row with FirstName `Jane`,
LastName `Doe` and Date `2024-01-15` gets the file name
`Jane Doe Statement 01-14-24.txt`, the day before the row's date: the
date-only text is parsed as midnight UTC and read back with the local
getters.  On a machine in UTC the name is `Jane Doe Statement 01-15-24.txt`. -/
theorem file_name_day_shifts_west_of_utc :
    (processOutputDocsFormat pacificEnv [janeDueRow] none).patients.map
      (fun p => (p.date, p.documentType, p.fileName, p.pdfFileName)) =
      [("2024-01-15".toList, "Statement".toList, "Jane Doe Statement 01-14-24.txt".toList,
        "Jane Doe Statement 01-14-24.pdf".toList)] ∧
    (processOutputDocsFormat utcEnv [janeDueRow] none).patients.map
      (fun p => (p.date, p.documentType, p.fileName, p.pdfFileName)) =
      [("2024-01-15".toList, "Statement".toList, "Jane Doe Statement 01-15-24.txt".toList,
        "Jane Doe Statement 01-15-24.pdf".toList)] := by
  decide

/-- C16 on the code: a row whose date cell is `not a date` gets the file name
`Jane Doe Statement NaN-NaN-aN.txt`, not one made from the processing date
(`11-04-26` here); and so does every row whose date text gives an Invalid
Date: the date part is `NaN-NaN-aN`. -/
theorem unparsable_date_gives_NaN_file_name :
    (processOutputDocsFormat utcEnv [badDateRow] none).patients.map
      (fun p => (p.date, p.fileName)) =
      [("not a date".toList, "Jane Doe Statement NaN-NaN-aN.txt".toList)] ∧
    formatDate utcEnv utcEnv.todayISO = "11-04-26".toList ∧
    ∀ (env : Env) (documentType : Str) (emailData : Option (List Row)) (record : Row)
      (index : Nat), env.dateFields (resolveDate env record) = none →
      (buildPatient env documentType emailData record index).fileName =
        resolveFirstName record ++ " " ++ resolveLastName record ++ " " ++ documentType ++
          " NaN-NaN-aN.txt" := by
  refine ⟨by decide, by decide, fun env documentType emailData record index h => ?_⟩
  rw [(fileName_eq env documentType emailData record index).1]
  have hfmt : formatDate env (resolveDate env record) = "NaN-NaN-aN".toList := by
    simp only [formatDate, h]
    decide
  rw [hfmt]
  simp [List.append_assoc]

/-! ## Rendered text (C17, C18) -/

theorem statementContent_eq (env : Env)
    (firstName lastName diagnosis location date cpt charge due : Str) :
    ∃ preamble : Str,
      statementContent env firstName lastName diagnosis location date cpt charge due =
        preamble ++ columnHeaderRow ++ "\n" ++ List.replicate 60 '-' ++ "\n" ++
          dataRow date cpt charge due :=
  ⟨practiceHeader ++ "Patient: " ++ firstName ++ " " ++ lastName ++ "\n" ++
    "Diagnosis: " ++ diagnosis ++ "\n" ++ "Location: " ++ location ++ "\n" ++
    "Date: " ++ env.localeDate ++ "\n" ++ "\n", by
    simp only [statementContent, columnHeaderRow, dataRow, List.append_assoc]⟩

theorem lastLine_append (head row : Str) (hrow : '\n' ∉ row) :
    lastLine (head ++ "\n" ++ row) = row := by
  unfold lastLine
  have hrev : (head ++ "\n" ++ row).reverse = row.reverse ++ ('\n' :: head.reverse) := by
    simp [List.reverse_append]
  rw [hrev, List.takeWhile_append_of_pos, List.takeWhile_cons_of_neg (by simp), List.append_nil,
    List.reverse_reverse]
  intro c hc
  have : c ≠ '\n' := fun h => hrow (h ▸ List.mem_reverse.mp hc)
  simpa using this

theorem mem_padEnd (s : Str) (n : Nat) (c : Char) (hc : c ∈ padEnd s n) : c ∈ s ∨ c = ' ' := by
  unfold padEnd at hc
  rcases List.mem_append.mp hc with h | h
  · exact Or.inl h
  · exact Or.inr (List.eq_of_mem_replicate h)

theorem dataRow_no_line_feed (date cpt charge due : Str)
    (h : '\n' ∉ date ++ cpt ++ charge ++ due) : '\n' ∉ dataRow date cpt charge due := by
  intro hmem
  apply h
  simp only [dataRow, List.mem_append] at hmem
  have hsp : ('\n' : Char) ≠ ' ' := by decide
  have hdollar : ('\n' : Char) ∉ "$".toList := by decide
  have hblank : ('\n' : Char) ∉ " ".toList := by decide
  simp only [List.mem_append]
  rcases hmem with (((((hd | hb) | hc) | hb) | (hx | hch)) | hb) | (hx | hdu)
  · rcases mem_padEnd _ _ _ hd with h' | h'
    · exact Or.inl (Or.inl (Or.inl h'))
    · exact absurd h' hsp
  · exact absurd hb hblank
  · rcases mem_padEnd _ _ _ hc with h' | h'
    · exact Or.inl (Or.inl (Or.inr h'))
    · exact absurd h' hsp
  · exact absurd hb hblank
  · exact absurd hx hdollar
  · rcases mem_padEnd _ _ _ hch with h' | h'
    · exact Or.inl (Or.inr h')
    · exact absurd h' hsp
  · exact absurd hb hblank
  · exact absurd hx hdollar
  · rcases mem_padEnd _ _ _ hdu with h' | h'
    · exact Or.inr h'
    · exact absurd h' hsp

/-- C17, as stated, fails: the text rendered for the row with FirstName `Jane`,
LastName `Doe`, Due `150.00`, CPT `99213` and Date `2024-01-15` does not
contain the line "01-15-24    99213        $150.00     $0.00      ". -/
theorem expected_line_counterexample :
    (processOutputDocsFormat utcEnv [janeDueRow] none).patients.map
      (fun p => includes p.textContent expectedJaneLine) = [false] ∧
    (processOutputDocsFormat pacificEnv [janeDueRow] none).patients.map
      (fun p => includes p.textContent expectedJaneLine) = [false] := by
  constructor <;> decide!

/-- C17, amended: for the billing row with FirstName `Jane`, LastName `Doe`,
Due `150.00`, CPT `99213` and Date `2024-01-15`, the text rendered by
`processOutputDocsFormat` has as its last line
"2024-01-15   99213        $0.00        $150.00     ": the date as written in
the row, the service code, the charge (`0.00`, the row having no charge cell)
and the due amount. -/
theorem jane_statement_last_line (env : Env) (emailData : Option (List Row)) :
    (processOutputDocsFormat env [janeDueRow] emailData).patients.map
      (fun p => lastLine p.textContent) =
      ["2024-01-15   99213        $0.00        $150.00     ".toList] ∧
    (processOutputDocsFormat env [janeDueRow] emailData).patients.map
      (fun p => includes p.textContent
        "\n2024-01-15   99213        $0.00        $150.00     ") = [true] := by
  obtain ⟨preamble, hpre⟩ := statementContent_eq env (resolveFirstName janeDueRow)
    (resolveLastName janeDueRow) (resolveDiagnosis janeDueRow) (resolveLocation janeDueRow)
    (resolveDate env janeDueRow) (resolveCpt janeDueRow) (resolveCharge janeDueRow)
    (resolveDue janeDueRow)
  have hdate : resolveDate env janeDueRow = "2024-01-15".toList := by
    simp only [resolveDate]
    rfl
  have hrow : dataRow (resolveDate env janeDueRow) (resolveCpt janeDueRow)
      (resolveCharge janeDueRow) (resolveDue janeDueRow) =
      "2024-01-15   99213        $0.00        $150.00     ".toList := by
    rw [hdate]
    decide
  rw [hrow] at hpre
  have hp : (processOutputDocsFormat env [janeDueRow] emailData).patients =
      [buildPatient env (determineDocumentType [janeDueRow]) emailData janeDueRow 0] := rfl
  have htc : (buildPatient env (determineDocumentType [janeDueRow]) emailData janeDueRow
      0).textContent = preamble ++ columnHeaderRow ++ "\n" ++ List.replicate 60 '-' ++ "\n" ++
        "2024-01-15   99213        $0.00        $150.00     ".toList := hpre
  have hnl : '\n' ∉ "2024-01-15   99213        $0.00        $150.00     ".toList := by decide
  rw [hp]
  simp only [List.map_cons, List.map_nil, htc]
  constructor
  · rw [lastLine_append _ _ hnl]
  · have hsplit : "\n2024-01-15   99213        $0.00        $150.00     ".toList =
        "\n".toList ++ "2024-01-15   99213        $0.00        $150.00     ".toList := by decide
    have hinc : includes (preamble ++ columnHeaderRow ++ "\n" ++ List.replicate 60 '-' ++ "\n" ++
        "2024-01-15   99213        $0.00        $150.00     ".toList)
        "\n2024-01-15   99213        $0.00        $150.00     ".toList = true := by
      rw [includes_iff_block, hsplit]
      exact ⟨preamble ++ columnHeaderRow ++ "\n" ++ List.replicate 60 '-', [], by
        simp only [List.append_assoc, List.append_nil]⟩
    rw [hinc]

theorem utf16Length_append (s t : Str) :
    utf16Length (s ++ t) = utf16Length s + utf16Length t := by
  simp [utf16Length]

theorem utf16Length_blanks (m : Nat) : utf16Length (List.replicate m ' ') = m := by
  induction m with
  | zero => rfl
  | succ m ih =>
    rw [List.replicate_succ]
    have h : utf16Length (' ' :: List.replicate m ' ') =
        1 + utf16Length (List.replicate m ' ') := by
      simp [utf16Length, utf16Units]
    rw [h, ih]
    omega

theorem padEnd_utf16Length (s : Str) (n : Nat) (h : utf16Length s ≤ n) :
    utf16Length (padEnd s n) = n := by
  rw [padEnd, utf16Length_append, utf16Length_blanks]
  omega

theorem statementContent_lines (env : Env)
    (firstName lastName diagnosis location date cpt charge due : Str) :
    ∃ preamble : Str,
      statementContent env firstName lastName diagnosis location date cpt charge due =
        preamble ++ "\n" ++ columnHeaderRow ++ "\n" ++ List.replicate 60 '-' ++ "\n" ++
          dataRow date cpt charge due :=
  ⟨practiceHeader ++ "Patient: " ++ firstName ++ " " ++ lastName ++ "\n" ++
    "Diagnosis: " ++ diagnosis ++ "\n" ++ "Location: " ++ location ++ "\n" ++
    "Date: " ++ env.localeDate ++ "\n", by
    simp only [statementContent, columnHeaderRow, dataRow, List.append_assoc]⟩

theorem row_fields (a b c d : Str) (ha : utf16Length a = 12) (hb : utf16Length b = 12)
    (hc : utf16Length c = 12) (hd : utf16Length d = 12) :
    utf16Length (a ++ " " ++ b ++ " " ++ c ++ " " ++ d) = 51 ∧
    FieldAt (a ++ " " ++ b ++ " " ++ c ++ " " ++ d) 0 a ∧
    FieldAt (a ++ " " ++ b ++ " " ++ c ++ " " ++ d) 13 b ∧
    FieldAt (a ++ " " ++ b ++ " " ++ c ++ " " ++ d) 26 c ∧
    FieldAt (a ++ " " ++ b ++ " " ++ c ++ " " ++ d) 39 d := by
  have hblank : utf16Length (" ".toList) = 1 := by decide
  refine ⟨?_, ⟨[], " ".toList ++ b ++ " ".toList ++ c ++ " ".toList ++ d, ?_, rfl⟩,
    ⟨a ++ " ".toList, " ".toList ++ c ++ " ".toList ++ d, ?_, ?_⟩,
    ⟨a ++ " ".toList ++ b ++ " ".toList, " ".toList ++ d, ?_, ?_⟩,
    ⟨a ++ " ".toList ++ b ++ " ".toList ++ c ++ " ".toList, [], ?_, ?_⟩⟩
  · simp only [utf16Length_append, ha, hb, hc, hd, hblank]
  · simp only [List.append_assoc, List.nil_append]
  · simp only [List.append_assoc]
  · simp only [utf16Length_append, ha, hblank]
  · simp only [List.append_assoc]
  · simp only [utf16Length_append, ha, hb, hblank]
  · simp only [List.append_assoc, List.append_nil]
  · simp only [utf16Length_append, ha, hb, hc, hblank]

/-- C18, as stated, fails: the patient built from `lineFeedRow` has a date of
10 characters, a service code of 3, a charge of 4 and a due of 6, and the last
line of its text has 36 characters, not 51: the service code holds a line
feed, which is printed as it stands. -/
theorem last_line_counterexample :
    (processOutputDocsFormat utcEnv [lineFeedRow] none).patients.map
      (fun p => (utf16Length p.date, utf16Length p.cpt, utf16Length p.charge,
        utf16Length p.due, utf16Length (lastLine p.textContent))) = [(10, 3, 4, 6, 36)] := by
  decide!

/-- C18, amended: the rendered text ends with a table of four 12-character
fields separated by single blanks: for a patient whose date and service code
have at most 12 characters and whose charge and due have at most 11
(characters counted as the engine's `length` does), the text ends with a line
feed, the column-header row, a line feed, 60 dashes, a line feed and the data
row; both rows have exactly 51 characters, the column-header row holds no line
feed, the fields of both start at columns 0, 13, 26 and 39, and each monetary
field is `$` followed by the value padded on the right with blanks to width
11; the data row is the last line of the text when none of the four values
holds a line feed. -/
theorem table_rows_fixed_width (env : Env) (documentType : Str)
    (emailData : Option (List Row)) (record : Row) (index : Nat) (p : Patient)
    (hp : p = buildPatient env documentType emailData record index)
    (hdate : utf16Length p.date ≤ 12) (hcpt : utf16Length p.cpt ≤ 12)
    (hcharge : utf16Length p.charge ≤ 11) (hdue : utf16Length p.due ≤ 11) :
    (∃ preamble : Str,
      p.textContent =
        preamble ++ "\n" ++ columnHeaderRow ++ "\n" ++ List.replicate 60 '-' ++ "\n" ++
          dataRow p.date p.cpt p.charge p.due) ∧
    '\n' ∉ columnHeaderRow ∧
    utf16Length columnHeaderRow = 51 ∧
    FieldAt columnHeaderRow 0 (padEnd "Date" 12) ∧
    FieldAt columnHeaderRow 13 (padEnd "CPT" 12) ∧
    FieldAt columnHeaderRow 26 (padEnd "Charge" 12) ∧
    FieldAt columnHeaderRow 39 (padEnd "Due" 12) ∧
    utf16Length (dataRow p.date p.cpt p.charge p.due) = 51 ∧
    FieldAt (dataRow p.date p.cpt p.charge p.due) 0 (padEnd p.date 12) ∧
    FieldAt (dataRow p.date p.cpt p.charge p.due) 13 (padEnd p.cpt 12) ∧
    FieldAt (dataRow p.date p.cpt p.charge p.due) 26 ('$' :: padEnd p.charge 11) ∧
    FieldAt (dataRow p.date p.cpt p.charge p.due) 39 ('$' :: padEnd p.due 11) ∧
    dataRow p.date p.cpt p.charge p.due =
      padEnd p.date 12 ++ " " ++ padEnd p.cpt 12 ++ " " ++ ('$' :: padEnd p.charge 11) ++ " " ++
        ('$' :: padEnd p.due 11) ∧
    utf16Length (padEnd p.date 12) = 12 ∧ utf16Length (padEnd p.cpt 12) = 12 ∧
    utf16Length (padEnd p.charge 11) = 11 ∧ utf16Length (padEnd p.due 11) = 11 ∧
    padEnd p.date 12 = p.date ++ List.replicate (12 - utf16Length p.date) ' ' ∧
    padEnd p.cpt 12 = p.cpt ++ List.replicate (12 - utf16Length p.cpt) ' ' ∧
    padEnd p.charge 11 = p.charge ++ List.replicate (11 - utf16Length p.charge) ' ' ∧
    padEnd p.due 11 = p.due ++ List.replicate (11 - utf16Length p.due) ' ' ∧
    ('\n' ∉ p.date ++ p.cpt ++ p.charge ++ p.due →
      lastLine p.textContent = dataRow p.date p.cpt p.charge p.due) := by
  obtain ⟨preamble, hpre⟩ := statementContent_lines env p.firstName p.lastName p.diagnosis
    p.location p.date p.cpt p.charge p.due
  have htext : p.textContent = statementContent env p.firstName p.lastName p.diagnosis
      p.location p.date p.cpt p.charge p.due := by
    rw [hp]; rfl
  have hda : utf16Length (padEnd p.date 12) = 12 := padEnd_utf16Length _ _ hdate
  have hcp : utf16Length (padEnd p.cpt 12) = 12 := padEnd_utf16Length _ _ hcpt
  have hch : utf16Length (padEnd p.charge 11) = 11 := padEnd_utf16Length _ _ hcharge
  have hdu : utf16Length (padEnd p.due 11) = 11 := padEnd_utf16Length _ _ hdue
  have hdollar : ∀ t : Str, utf16Length t = 11 → utf16Length ("$".toList ++ t) = 12 := by
    intro t ht
    rw [utf16Length_append, ht]
    rfl
  have hhead := row_fields (padEnd "Date" 12) (padEnd "CPT" 12) (padEnd "Charge" 12)
    (padEnd "Due" 12) (by decide) (by decide) (by decide) (by decide)
  have hrow := row_fields (padEnd p.date 12) (padEnd p.cpt 12) ("$".toList ++ padEnd p.charge 11)
    ("$".toList ++ padEnd p.due 11) hda hcp (hdollar _ hch) (hdollar _ hdu)
  refine ⟨⟨preamble, htext.trans hpre⟩,
    by decide, hhead.1, hhead.2.1, hhead.2.2.1, hhead.2.2.2.1, hhead.2.2.2.2, hrow.1, hrow.2.1,
    hrow.2.2.1, hrow.2.2.2.1, hrow.2.2.2.2, rfl, hda, hcp, hch, hdu, rfl, rfl, rfl, rfl, ?_⟩
  intro hnl
  rw [htext, hpre]
  exact lastLine_append _ _ (dataRow_no_line_feed _ _ _ _ hnl)

/-- Instance of C18: the patient built from `janeDueRow`, whose date has 10
characters, service code 5, charge 4 and due 6. -/
theorem table_rows_fixed_width_witness :
    (utf16Length (buildPatient utcEnv "Statement" none janeDueRow 0).date ≤ 12 ∧
      utf16Length (buildPatient utcEnv "Statement" none janeDueRow 0).cpt ≤ 12 ∧
      utf16Length (buildPatient utcEnv "Statement" none janeDueRow 0).charge ≤ 11 ∧
      utf16Length (buildPatient utcEnv "Statement" none janeDueRow 0).due ≤ 11) ∧
    utf16Length (dataRow (buildPatient utcEnv "Statement" none janeDueRow 0).date
      (buildPatient utcEnv "Statement" none janeDueRow 0).cpt
      (buildPatient utcEnv "Statement" none janeDueRow 0).charge
      (buildPatient utcEnv "Statement" none janeDueRow 0).due) = 51 ∧
    lastLine (buildPatient utcEnv "Statement" none janeDueRow 0).textContent =
      "2024-01-15   99213        $0.00        $150.00     " :=
  ⟨by decide,
    (table_rows_fixed_width utcEnv "Statement" none janeDueRow 0 _ rfl (by decide)
      (by decide) (by decide) (by decide)).2.2.2.2.2.2.2.1,
    by decide!⟩

/-! ## The drafts file (C19) -/

theorem join_cons (sep x : Str) (xs : List Str) :
    join sep (x :: xs) = x ++ (xs.map fun y => sep ++ y).flatten := by
  unfold join
  induction xs generalizing x with
  | nil => simp [List.intercalate, List.intersperse]
  | cons y ys ih =>
    have h := ih y
    simp only [List.intercalate, List.intersperse, List.map_cons] at h ⊢
    simp only [List.flatten_cons] at h ⊢
    rw [h]
    simp [List.append_assoc]

/-- C19, as stated, fails: with two drafts the text written to the drafts file
is not the plain concatenation of the two records; a line feed stands between
them. -/
theorem drafts_file_counterexample :
    (generateEmailDrafts [janePatient, bobPatient] "Dear {name}" "Statement").draftsFile ≠
      some (((generateEmailDrafts [janePatient, bobPatient] "Dear {name}"
        "Statement").drafts.map draftRecord).flatten) ∧
    (generateEmailDrafts [janePatient, bobPatient] "Dear {name}" "Statement").draftsFile =
      some ("To: jane@example.com\nSubject: Statement\n\nDear Jane Doe\n\n".toList ++
        List.replicate 50 '=' ++ "\n".toList ++ "\n".toList ++
        "To: bob@example.com\nSubject: Statement\n\nDear Bob Ray\n\n".toList ++
        List.replicate 50 '=' ++ "\n".toList) := by
  constructor <;> decide!

/-- C19, amended: for a non-empty list of composed drafts, the text written to
the drafts file is the records of the drafts, in patient order, each of the
form "To: {email}\nSubject: {subject}\n\n{body}\n\n{separator}\n" with a
separator of 50 `=` characters, joined by one line feed: every record after
the first is preceded by an extra "\n", and nothing follows the last one.
No file is written when there is no draft. -/
theorem drafts_file_is_joined_records (patients : List Row)
    (emailTemplate emailSubject : Str) :
    (generateEmailDrafts patients emailTemplate emailSubject).draftsFile =
      (match (generateEmailDrafts patients emailTemplate emailSubject).drafts with
        | [] => none
        | d :: ds => some (draftRecord d ++ (ds.map fun x => "\n".toList ++ draftRecord x).flatten)) ∧
    (generateEmailDrafts patients emailTemplate emailSubject).drafts =
      (patients.filter fun p => !emailBlank p).map (composeDraft emailTemplate emailSubject) ∧
    ∀ d : EmailDraft, draftRecord d =
      "To: ".toList ++ d.to_ ++ "\nSubject: ".toList ++ d.subject ++ "\n\n".toList ++ d.body ++
        "\n\n".toList ++ List.replicate 50 '=' ++ "\n".toList := by
  have h := draftLoop_eq emailTemplate emailSubject patients [] []
  simp only [List.nil_append] at h
  refine ⟨?_, by simp only [generateEmailDrafts, h], fun d => rfl⟩
  simp only [generateEmailDrafts, h]
  rcases (patients.filter fun p => !emailBlank p).map (composeDraft emailTemplate emailSubject)
    with _ | ⟨d, ds⟩
  · rfl
  · simp only [List.length_cons, Nat.zero_lt_succ, if_true, draftsContent, List.map_cons,
      join_cons, List.map_map]
    rfl

/-! ## Billing type (C20) -/

theorem validateBillingData_type (data : Option (List Row)) :
    (validateBillingData data).type = "empty".toList ∨
    (validateBillingData data).type = "billing".toList ∨
    (validateBillingData data).type = "unknown".toList := by
  unfold validateBillingData
  split
  · exact Or.inl rfl
  · exact Or.inl rfl
  · simp only
    split
    · exact Or.inr (Or.inl rfl)
    · exact Or.inr (Or.inr rfl)

/-- C20 on the code: for a billing file with a `Due` column and no `Paid`
column the analysis returns the type `billing`, not `statement`, and the button
is labelled `Generate SuperBills`; a file with a `Paid` column gives `billing`
too.  The analysis only ever returns `empty`, `billing` or `unknown`, so
after any analysis the button reads `Generate SuperBills`, whereas the
initial `billingType` is `statement`. -/
theorem analysis_never_gives_statement :
    billingTypeAfterAnalysis dueFile = "billing".toList ∧
    buttonText (billingTypeAfterAnalysis dueFile) false = "Generate SuperBills".toList ∧
    billingTypeAfterAnalysis paidFile = "billing".toList ∧
    buttonText initialBillingType false = "Generate Statements".toList ∧
    ∀ data : List Row,
      billingTypeAfterAnalysis data ≠ "statement".toList ∧
      billingTypeAfterAnalysis data ≠ "superbill".toList ∧
      buttonText (billingTypeAfterAnalysis data) false = "Generate SuperBills".toList := by
  refine ⟨by decide, by decide, by decide, by decide, fun data => ?_⟩
  have h := validateBillingData_type (some data)
  unfold billingTypeAfterAnalysis analyzeBillingCsv
  rcases h with h | h | h <;> rw [h] <;> decide

/-! ## Idempotence of the coercion (C14) -/

theorem takeWhile_zeros_append (a : Nat) (l : Str) (hl : l.head? ≠ some '0') :
    (List.replicate a '0' ++ l).takeWhile (fun c => c = '0') = List.replicate a '0' ∧
    (List.replicate a '0' ++ l).dropWhile (fun c => c = '0') = l := by
  induction a with
  | zero =>
    cases l with
    | nil => exact ⟨rfl, rfl⟩
    | cons c t =>
      have hc : c ≠ '0' := fun h => hl (by simp [h])
      simp [List.takeWhile, List.dropWhile, hc]
  | succ a ih =>
    rw [List.replicate_succ, List.cons_append, List.takeWhile_cons_of_pos (by simp),
      List.dropWhile_cons_of_pos (by simp), ih.1, ih.2]
    exact ⟨rfl, rfl⟩

theorem normalizeDecimal_of_padded (negative : Bool) (intDigits fracDigits sig : Str)
    (a b : Nat) (hsig : sig ≠ []) (hhead : sig.head? ≠ some '0')
    (hlast : sig.getLast? ≠ some '0')
    (hdigits : intDigits ++ fracDigits = List.replicate a '0' ++ sig ++ List.replicate b '0')
    (n : Int) (hn : (intDigits.length : Int) - (a : Int) = n) (hlen : sig.length ≤ 15)
    (hlo : -306 ≤ n) (hhi : n ≤ 308) :
    normalizeDecimal negative intDigits fracDigits = JSNumber.finite negative sig n := by
  unfold normalizeDecimal
  simp only [hdigits, List.append_assoc]
  have hhead' : (sig ++ List.replicate b '0').head? ≠ some '0' := by
    cases sig with
    | nil => exact absurd rfl hsig
    | cons c t => simpa using hhead
  have h1 := takeWhile_zeros_append a (sig ++ List.replicate b '0') hhead'
  rw [h1.1, List.length_replicate, List.drop_left' (List.length_replicate a '0')]
  have hrev : (sig ++ List.replicate b '0').reverse = List.replicate b '0' ++ sig.reverse := by
    simp [List.reverse_append]
  have hlast' : sig.reverse.head? ≠ some '0' := by
    rw [List.head?_reverse]; exact hlast
  rw [hrev, (takeWhile_zeros_append b sig.reverse hlast').2, List.reverse_reverse]
  simp only [hsig, if_false, hn]
  rw [if_pos ⟨hlen, hlo, hhi⟩]

theorem takeWhile_isDigit_all (ds rest : Str) (hds : ∀ c ∈ ds, c.isDigit = true)
    (hrest : ∀ c, rest.head? = some c → c.isDigit = false) :
    (ds ++ rest).takeWhile Char.isDigit = ds ∧ (ds ++ rest).dropWhile Char.isDigit = rest := by
  induction ds with
  | nil =>
    cases rest with
    | nil => exact ⟨rfl, rfl⟩
    | cons c t =>
      have hc := hrest c rfl
      simp [List.takeWhile, List.dropWhile, hc]
  | cons d ds ih =>
    have hd := hds d (List.mem_cons_self _ _)
    have ih' := ih fun c hc => hds c (List.mem_cons_of_mem _ hc)
    rw [List.cons_append, List.takeWhile_cons_of_pos hd, List.dropWhile_cons_of_pos hd,
      ih'.1, ih'.2]
    exact ⟨rfl, rfl⟩

theorem parseUnsigned_integer (negative : Bool) (ds : Str) (hne : ds ≠ [])
    (hds : ∀ c ∈ ds, c.isDigit = true) :
    parseUnsigned negative ds = normalizeDecimal negative ds [] := by
  have h := takeWhile_isDigit_all ds [] hds (fun c hc => by simp at hc)
  rw [List.append_nil] at h
  unfold parseUnsigned
  simp only [h.1, h.2, hne, false_and, if_false]

theorem parseUnsigned_fraction (negative : Bool) (ds fs : Str) (hne : ds ≠ [])
    (hds : ∀ c ∈ ds, c.isDigit = true) (hfs : ∀ c ∈ fs, c.isDigit = true) :
    parseUnsigned negative (ds ++ '.' :: fs) = normalizeDecimal negative ds fs := by
  have h := takeWhile_isDigit_all ds ('.' :: fs) hds (fun c hc => by
    simp only [List.head?_cons, Option.some.injEq] at hc
    rw [← hc]; decide)
  have hf := takeWhile_isDigit_all fs [] hfs (fun c hc => by simp at hc)
  rw [List.append_nil] at hf
  unfold parseUnsigned
  simp only [h.1, h.2, hf.1, hne, false_and, if_false]

theorem drop_length_takeWhile (p : Char → Bool) (l : Str) :
    l.drop (l.takeWhile p).length = l.dropWhile p := by
  have h := List.takeWhile_append_dropWhile p l
  have hd : (l.takeWhile p ++ l.dropWhile p).drop (l.takeWhile p).length = l.dropWhile p :=
    List.drop_left' rfl
  rwa [h] at hd

theorem normalizeDecimal_canonical (negative : Bool) (intDigits fracDigits : Str)
    (h : ∀ c ∈ intDigits ++ fracDigits, c.isDigit = true) :
    Canonical (normalizeDecimal negative intDigits fracDigits) := by
  unfold normalizeDecimal
  simp only [drop_length_takeWhile]
  generalize hD : intDigits ++ fracDigits = digits at h
  generalize hE : digits.dropWhile (fun c => decide (c = '0')) = tail
  generalize hS : (tail.reverse.dropWhile fun c => decide (c = '0')).reverse = sig
  by_cases hnil : sig = []
  · simp only [hnil, if_true, JSNumber.zero, Canonical]
    simp
  · simp only [hnil, if_false]
    split
    case neg.isFalse => trivial
    rename_i hdom
    simp only [Canonical]
    have hrev : sig.reverse = tail.reverse.dropWhile fun c => decide (c = '0') := by
      rw [← hS, List.reverse_reverse]
    have hpre : sig <+: tail := by
      rw [← List.reverse_suffix, hrev]
      exact List.dropWhile_suffix _
    refine ⟨fun c hc => ?_, ?_, ?_, fun hn => (hnil hn).elim, hdom.1⟩
    · have hct : c ∈ tail := hpre.subset hc
      rw [← hE] at hct
      exact h c ((List.dropWhile_sublist _).subset hct)
    · obtain ⟨c, s', rfl⟩ := List.exists_cons_of_ne_nil hnil
      obtain ⟨t, ht⟩ := hpre
      have htail : tail ≠ [] := by rw [← ht]; simp
      have hhead := List.head_dropWhile_not (fun c => decide (c = '0')) digits (by rw [hE]; exact htail)
      have hc : (digits.dropWhile fun c => decide (c = '0')).head (by rw [hE]; exact htail) = c := by
        simp only [hE, ← ht, List.cons_append, List.head_cons]
      rw [hc] at hhead
      simp only [List.head?_cons, ne_eq, Option.some.injEq]
      simpa using hhead
    · have hne : tail.reverse.dropWhile (fun c => decide (c = '0')) ≠ [] := by
        rw [← hrev]; simpa using hnil
      have hhead := List.head_dropWhile_not (fun c => decide (c = '0')) tail.reverse hne
      rw [← List.head?_reverse, hrev, List.head?_eq_head hne]
      simp only [ne_eq, Option.some.injEq]
      simpa using hhead

theorem parseUnsigned_canonical (negative : Bool) (s : Str) :
    Canonical (parseUnsigned negative s) := by
  unfold parseUnsigned
  simp only
  split
  · trivial
  · apply normalizeDecimal_canonical
    intro c hc
    rcases List.mem_append.mp hc with h | h
    · exact List.mem_takeWhile_imp h
    · split at h
      · exact List.mem_takeWhile_imp h
      · simp at h

theorem parseFloat_canonical (s : Str) : Canonical (parseFloat s) := by
  unfold parseFloat
  split <;> exact parseUnsigned_canonical _ _

theorem digitsToString_shape (negative : Bool) (sig : Str) (n : Int)
    (hdig : ∀ c ∈ sig, c.isDigit = true) (hsig : sig ≠ [])
    (hhead : sig.head? ≠ some '0') (hlast : sig.getLast? ≠ some '0')
    (hlen : sig.length ≤ 15) (hlo : -6 < n) (hhi : n ≤ 21) :
    ∃ intDigits fracDigits : Str,
      intDigits ≠ [] ∧ (∀ c ∈ intDigits, c.isDigit = true) ∧
      (∀ c ∈ fracDigits, c.isDigit = true) ∧
      ((digitsToString sig n = intDigits ∧ fracDigits = []) ∨
        digitsToString sig n = intDigits ++ '.' :: fracDigits) ∧
      normalizeDecimal negative intDigits fracDigits = JSNumber.finite negative sig n := by
  have hzero : ∀ m : Nat, ∀ c ∈ List.replicate m '0', c.isDigit = true := fun m c hc => by
    rw [List.eq_of_mem_replicate hc]; decide
  unfold digitsToString
  simp only
  by_cases hA : (sig.length : Int) ≤ n ∧ n ≤ 21
  · rw [if_pos hA]
    refine ⟨sig ++ List.replicate (n - sig.length).toNat '0', [], by simp [hsig], ?_, by simp,
      Or.inl ⟨rfl, rfl⟩, ?_⟩
    · intro c hc
      rcases List.mem_append.mp hc with h | h
      · exact hdig c h
      · exact hzero _ c h
    · refine normalizeDecimal_of_padded negative _ [] sig 0 (n - sig.length).toNat hsig hhead
        hlast (by simp) n ?_ hlen (by omega) (by omega)
      have := Int.toNat_of_nonneg (show (0 : Int) ≤ n - sig.length by omega)
      simp only [List.length_append, List.length_replicate, Nat.cast_add]
      omega
  · rw [if_neg hA]
    by_cases hB : 0 < n ∧ n ≤ 21
    · rw [if_pos hB]
      have hj := Int.toNat_of_nonneg (show (0 : Int) ≤ n by omega)
      have hjk : n.toNat < sig.length := by omega
      have hjpos : 0 < n.toNat := by omega
      refine ⟨sig.take n.toNat, sig.drop n.toNat, ?_, fun c hc => hdig c (List.mem_of_mem_take hc),
        fun c hc => hdig c (List.mem_of_mem_drop hc), Or.inr ?_, ?_⟩
      · intro h
        have hlen := congrArg List.length h
        simp only [List.length_take, List.length_nil] at hlen
        omega
      · have hdot : (".".toList : Str) = ['.'] := rfl
        show sig.take n.toNat ++ ".".toList ++ sig.drop n.toNat = _
        rw [hdot, List.append_assoc]
        rfl
      · refine normalizeDecimal_of_padded negative _ _ sig 0 0 hsig hhead hlast
          (by simp [List.take_append_drop]) n ?_ hlen (by omega) (by omega)
        simp only [List.length_take]
        omega
    · rw [if_neg hB, if_pos ⟨hlo, by omega⟩]
      have hm := Int.toNat_of_nonneg (show (0 : Int) ≤ -n by omega)
      refine ⟨['0'], List.replicate (-n).toNat '0' ++ sig, by simp, by simp, ?_, Or.inr ?_, ?_⟩
      · intro c hc
        rcases List.mem_append.mp hc with h | h
        · exact hzero _ c h
        · exact hdig c h
      · have hdot : ("0.".toList : Str) = ['0', '.'] := rfl
        show "0.".toList ++ List.replicate (-n).toNat '0' ++ sig = _
        rw [hdot]
        simp [List.append_assoc]
      · refine normalizeDecimal_of_padded negative _ _ sig ((-n).toNat + 1) 0 hsig hhead hlast
          (by simp [List.replicate_succ]) n ?_ hlen (by omega) (by omega)
        simp only [List.length_singleton, Nat.cast_add, Nat.cast_one]
        omega

theorem coerceCell_eq (x : Str) : coerceCell x = coerceAmount (orElse (some x) "0") := rfl

theorem parseFloat_signed (negative : Bool) (c : Char) (t : Str) (hc : c.isDigit = true) :
    parseFloat ((if negative then "-".toList else "".toList) ++ c :: t) =
      parseUnsigned negative (c :: t) := by
  cases negative
  · have hne : c ≠ '-' := fun h => by rw [h] at hc; exact absurd hc (by decide)
    show parseFloat (c :: t) = _
    unfold parseFloat
    split
    · next t' heq =>
      exact absurd (List.cons.inj heq).1 hne
    · rfl
  · rfl

theorem numberToString_finite (negative : Bool) (sig : Str) (n : Int) (hsig : sig ≠ []) :
    numberToString (JSNumber.finite negative sig n) =
      some ((if negative then "-".toList else "".toList) ++ digitsToString sig n) := by
  simp only [numberToString, hsig, if_false]
  cases negative <;> rfl

theorem coerceAmount_numberToString (negative : Bool) (sig : Str) (n : Int)
    (hc : Canonical (JSNumber.finite negative sig n)) (hsig : sig ≠ [])
    (hlo : -6 < n) (hhi : n ≤ 21) :
    ∃ c t, numberToString (JSNumber.finite negative sig n) =
        some ((if negative then "-".toList else "".toList) ++ c :: t) ∧
      coerceAmount ((if negative then "-".toList else "".toList) ++ c :: t) =
        JSNumber.finite negative sig n := by
  obtain ⟨hdig, hhead, hlast, -, hlen⟩ := hc
  obtain ⟨intDigits, fracDigits, hI, hId, hFd, hshape, hnorm⟩ :=
    digitsToString_shape negative sig n hdig hsig hhead hlast hlen hlo hhi
  obtain ⟨c, rest, rfl⟩ := List.exists_cons_of_ne_nil hI
  have hcd : c.isDigit = true := hId c (List.mem_cons_self _ _)
  have hbody : ∃ t, digitsToString sig n = c :: t ∧
      (∀ d ∈ c :: t, d.isDigit = true ∨ d = '.') ∧
      parseUnsigned negative (c :: t) = JSNumber.finite negative sig n := by
    rcases hshape with ⟨h, hF⟩ | h
    · refine ⟨rest, h, fun d hd => Or.inl (hId d hd), ?_⟩
      rw [parseUnsigned_integer negative _ hI hId, ← hF, hnorm]
    · refine ⟨rest ++ '.' :: fracDigits, by rw [h]; rfl, fun d hd => ?_, ?_⟩
      · rcases List.mem_cons.mp hd with hd | hd
        · exact Or.inl (hd ▸ hcd)
        · rcases List.mem_append.mp hd with hd | hd
          · exact Or.inl (hId d (List.mem_cons_of_mem _ hd))
          · rcases List.mem_cons.mp hd with hd | hd
            · exact Or.inr hd
            · exact Or.inl (hFd d hd)
      · have := parseUnsigned_fraction negative (c :: rest) fracDigits hI hId hFd
        rw [List.cons_append] at this
        rw [this, hnorm]
  obtain ⟨t, ht, hchars, hparse⟩ := hbody
  refine ⟨c, t, by rw [numberToString_finite negative sig n hsig, ht], ?_⟩
  have hstrip : stripNonNumeric ((if negative then "-".toList else "".toList) ++ c :: t) =
      (if negative then "-".toList else "".toList) ++ c :: t := by
    unfold stripNonNumeric
    rw [List.filter_eq_self]
    intro d hd
    rcases List.mem_append.mp hd with hd | hd
    · cases negative
      · simp at hd
      · have : d = '-' := by simpa using hd
        rw [this]; decide
    · rcases hchars d hd with h | h
      · simp [h]
      · rw [h]; decide
  rw [coerceAmount, hstrip, parseFloat_signed negative c t hcd, hparse]

theorem exponent_of_out_of_range (negative : Bool) (sig : Str) (n : Int) (hsig : sig ≠ [])
    (hout : ¬ (-6 < n ∧ n ≤ 21)) :
    ∃ text, numberToString (JSNumber.finite negative sig n) = some text ∧ 'e' ∈ text := by
  have hk : (1 : Int) ≤ sig.length := by
    have := List.length_pos.mpr hsig
    omega
  have hexp : ∀ e : Int, 'e' ∈ exponentText e := fun e => by
    unfold exponentText
    simp only [List.mem_append]
    exact Or.inl (Or.inl (by decide))
  refine ⟨_, numberToString_finite negative sig n hsig, List.mem_append_right _ ?_⟩
  unfold digitsToString
  simp only
  rw [if_neg (by omega), if_neg (by omega), if_neg (by omega)]
  split
  · exact List.mem_append_right _ (hexp _)
  · exact List.mem_append_right _ (hexp _)

theorem no_exponent_iff_in_range (negative : Bool) (sig : Str) (n : Int)
    (hc : Canonical (JSNumber.finite negative sig n)) (hsig : sig ≠ []) :
    (∃ text, numberToString (JSNumber.finite negative sig n) = some text ∧ 'e' ∉ text) ↔
      -6 < n ∧ n ≤ 21 := by
  constructor
  · rintro ⟨text, htext, h⟩
    by_contra hout
    obtain ⟨text', htext', hmem⟩ := exponent_of_out_of_range negative sig n hsig hout
    rw [htext] at htext'
    exact h (Option.some.inj htext' ▸ hmem)
  · rintro ⟨hlo, hhi⟩
    refine ⟨_, numberToString_finite negative sig n hsig, fun hmem => ?_⟩
    obtain ⟨hdig, hhead, hlast, -, hlen⟩ := hc
    obtain ⟨intDigits, fracDigits, -, hId, hFd, hshape, -⟩ :=
      digitsToString_shape negative sig n hdig hsig hhead hlast hlen hlo hhi
    have hnd : ('e' : Char).isDigit = false := by decide
    have hbody : 'e' ∉ digitsToString sig n := by
      intro hb
      rcases hshape with ⟨h, -⟩ | h
      · rw [h] at hb
        exact absurd (hId _ hb) (by rw [hnd]; decide)
      · rw [h] at hb
        rcases List.mem_append.mp hb with hb | hb
        · exact absurd (hId _ hb) (by rw [hnd]; decide)
        · rcases List.mem_cons.mp hb with hb | hb
          · exact absurd hb (by decide)
          · exact absurd (hFd _ hb) (by rw [hnd]; decide)
    rcases List.mem_append.mp hmem with hmem | hmem
    · cases negative
      · simp at hmem
      · exact absurd hmem (by decide)
    · exact hbody hmem

/-- The cells of `unroundedRecord` are outside what the model computes: 21
digits `9` are more than 15 significant digits (the engine rounds them to
10²¹), and 10⁴⁰⁰ is beyond the doubles (the engine gives `Infinity`); neither
value has a text form in the model. -/
theorem unrounded_cells :
    (createPatientData "" "" [unroundedRecord] none none).billingRecords.map
      (fun r => (r.charge, numberToString r.charge, r.payment, numberToString r.payment)) =
      [(JSNumber.unrounded false "999999999999999999999".toList 21, none,
        JSNumber.unrounded false "1".toList 401, none)] := by
  decide!

/-- C14, as stated, fails: for the record `extremeRecord` the charge cell
`0.00000001` is coerced to the Number whose text form is `1e-8`, and coercing
that text gives 1; the due cell `1000000000000000000000` is coerced to the
Number whose text form is `1e+21`, and coercing that text gives 121. -/
theorem coercion_not_idempotent_counterexample :
    (createPatientData "" "" [extremeRecord] none none).billingRecords.map
      (fun r => (r.charge, numberToString r.charge,
        (numberToString r.charge).map coerceCell)) =
      [(JSNumber.finite false "1".toList (-7), some "1e-8".toList,
        some (JSNumber.finite false "1".toList 1))] ∧
    (createPatientData "" "" [extremeRecord] none none).billingRecords.map
      (fun r => (r.payment, numberToString r.payment,
        (numberToString r.payment).map coerceCell)) =
      [(JSNumber.finite false "1".toList 22, some "1e+21".toList,
        some (JSNumber.finite false "121".toList 3))] ∧
    coerceCell "0.00000001" = JSNumber.finite false "1".toList (-7) ∧
    (numberToString (coerceCell "0.00000001")).map coerceCell ≠
      some (coerceCell "0.00000001") := by
  decide

/-- C14, amended: the charge/payment coercion of `createPatientData` is
idempotent on every cell whose coerced value is written with at most 15
significant digits and has a text form without exponent part: for such a cell
value `x`, coercing the text form of `coerce(x)` again gives `coerce(x)`, and
`coerce(x)` is NaN, zero, or of magnitude at least 10⁻⁶ and below 10²¹. -/
theorem coercion_idempotent_without_exponent (x text : Str)
    (htext : numberToString (coerceCell x) = some text) (h : 'e' ∉ text) :
    coerceCell text = coerceCell x ∧
    (coerceCell x = JSNumber.NaN ∨ coerceCell x = JSNumber.zero ∨
      ∃ negative sig n, coerceCell x = JSNumber.finite negative sig n ∧
        0 < sig.length ∧ sig.length ≤ 15 ∧ -6 < n ∧ n ≤ 21) := by
  have hcan : Canonical (coerceCell x) := by
    rw [coerceCell_eq]
    exact parseFloat_canonical _
  rcases hv : coerceCell x with _ | ⟨negative, sig, n⟩ | ⟨negative, sig, n⟩
  · rw [hv] at htext
    have ht : text = "NaN".toList := (Option.some.inj htext).symm
    subst ht
    exact ⟨by decide, Or.inl rfl⟩
  · rw [hv] at htext hcan
    by_cases hsig : sig = []
    · obtain ⟨hneg, hn⟩ := hcan.2.2.2.1 hsig
      subst hsig hneg hn
      have ht : text = "0".toList := (Option.some.inj htext).symm
      subst ht
      exact ⟨by decide, Or.inr (Or.inl rfl)⟩
    · have hrange : -6 < n ∧ n ≤ 21 := by
        by_contra hout
        obtain ⟨text', htext', hmem⟩ := exponent_of_out_of_range negative sig n hsig hout
        rw [htext] at htext'
        exact h (Option.some.inj htext' ▸ hmem)
      obtain ⟨c, t, hprint, hround⟩ :=
        coerceAmount_numberToString negative sig n hcan hsig hrange.1 hrange.2
      rw [htext] at hprint
      have ht := Option.some.inj hprint
      refine ⟨?_, Or.inr (Or.inr ⟨negative, sig, n, rfl, List.length_pos.mpr hsig,
        hcan.2.2.2.2, hrange.1, hrange.2⟩)⟩
      rw [coerceCell_eq, ht]
      cases negative
      · exact hround
      · exact hround
  · rw [hv] at htext
    exact absurd htext (by simp [numberToString])

/-- Instance of C14: the cell `$1,200.50` is coerced to 1200.5, whose text form
`1200.5` has no exponent part and is coerced to 1200.5 again. -/
theorem coercion_idempotent_without_exponent_witness :
    numberToString (coerceCell "$1,200.50") = some "1200.5".toList ∧
    'e' ∉ "1200.5".toList ∧
    coerceCell "1200.5" = coerceCell "$1,200.50" :=
  ⟨by decide, by decide,
    (coercion_idempotent_without_exponent "$1,200.50" "1200.5" (by decide) (by decide)).1⟩

/-! ## Progress throttle (C21) -/

theorem emittedCalls_progressRun_cons (last : Int) (call : ProgressCall)
    (rest : List ProgressCall) :
    emittedCalls (progressRun last (call :: rest)) =
      if call.now - last ≥ 100 then call :: emittedCalls (progressRun call.now rest)
      else emittedCalls (progressRun last rest) := by
  by_cases h : call.now - last ≥ 100
  · simp [emittedCalls, progressRun, sendProgress, h]
  · simp [emittedCalls, progressRun, sendProgress, h]

theorem emittedCalls_chain (last : Int) (calls : List ProgressCall) :
    List.Chain' (fun a b : ProgressCall => b.now - a.now ≥ 100)
        (emittedCalls (progressRun last calls)) ∧
      ∀ first ∈ (emittedCalls (progressRun last calls)).head?, first.now - last ≥ 100 := by
  induction calls generalizing last with
  | nil => simp [emittedCalls, progressRun]
  | cons call rest ih =>
    rw [emittedCalls_progressRun_cons]
    by_cases h : call.now - last ≥ 100
    · rw [if_pos h]
      refine ⟨List.chain'_cons'.mpr ⟨(ih call.now).2, (ih call.now).1⟩, ?_⟩
      intro first hfirst
      simp only [List.head?_cons, Option.mem_def, Option.some.injEq] at hfirst
      rw [← hfirst]
      exact h
    · rw [if_neg h]
      exact ih last

theorem progressRun_flag (last : Int) (calls : List ProgressCall) (i : Nat)
    (call : ProgressCall) (sent : Bool)
    (h : (progressRun last calls)[i]? = some (call, sent)) :
    sent = true ↔ call.now - lastEmittedTime last ((progressRun last calls).take i) ≥ 100 := by
  induction calls generalizing last i with
  | nil => simp [progressRun] at h
  | cons c rest ih =>
    cases i with
    | zero =>
      simp only [progressRun, List.getElem?_cons_zero, Option.some.injEq, Prod.mk.injEq] at h
      obtain ⟨rfl, rfl⟩ := h
      simp only [List.take_zero, lastEmittedTime, List.foldl_nil, sendProgress]
      by_cases hc : c.now - last ≥ 100 <;> simp [hc]
    | succ k =>
      simp only [progressRun, List.getElem?_cons_succ] at h
      have hk := ih (sendProgress last c).1 k h
      rw [hk]
      have hstate : lastEmittedTime last ((progressRun last (c :: rest)).take (k + 1)) =
          lastEmittedTime (sendProgress last c).1
            ((progressRun (sendProgress last c).1 rest).take k) := by
        simp only [progressRun, List.take_succ_cons, lastEmittedTime, List.foldl_cons,
          sendProgress]
        by_cases hc : c.now - last ≥ 100 <;> simp [hc]
      rw [hstate]

/-- C21: progress events are throttled to one per 100 ms: in every sequence of
`sendProgress` calls of one run, any two consecutively emitted events have
clock readings at least 100 ms apart, and a call is emitted if and only if its
clock reading is at least 100 ms after that of the last emitted call (after 0,
the initial `lastProgressTime`, when nothing was emitted yet, so that a first
call at a reading of 100 or more is emitted).  This holds for every sequence
of readings, in particular for non-decreasing ones. -/
theorem progress_is_throttled (calls : List ProgressCall) :
    List.Chain' (fun a b : ProgressCall => b.now - a.now ≥ 100)
      (emittedCalls (processFilesProgress calls)) ∧
    (∀ (i : Nat) (call : ProgressCall) (sent : Bool),
      (processFilesProgress calls)[i]? = some (call, sent) →
      (sent = true ↔
        call.now - lastEmittedTime 0 ((processFilesProgress calls).take i) ≥ 100)) ∧
    (processFilesProgress calls).map (fun entry => entry.1) = calls ∧
    (∀ (call : ProgressCall) (rest : List ProgressCall), calls = call :: rest →
      100 ≤ call.now → (processFilesProgress calls).head? = some (call, true)) := by
  refine ⟨(emittedCalls_chain 0 calls).1, fun i call sent h => progressRun_flag 0 calls i call sent h,
    ?_, ?_⟩
  · unfold processFilesProgress
    generalize (0 : Int) = last
    induction calls generalizing last with
    | nil => rfl
    | cons c rest ih => simp [progressRun, ih]
  · rintro call rest rfl hnow
    have h : call.now - 0 ≥ 100 := by omega
    simp [processFilesProgress, progressRun, sendProgress, hnow]

/-- Instance of C21: of six calls at the readings 1000, 1050, 1099, 1100,
1150 and 1200 ms, non-decreasing, the first, the fourth and the sixth are
emitted. -/
theorem progress_is_throttled_witness :
    List.Chain' (fun a b : ProgressCall => a.now ≤ b.now) sampleCalls ∧
    (processFilesProgress sampleCalls).map (fun entry => entry.2) =
      [true, false, false, true, false, true] ∧
    List.Chain' (fun a b : ProgressCall => b.now - a.now ≥ 100)
      (emittedCalls (processFilesProgress sampleCalls)) :=
  ⟨by simp [sampleCalls], by decide, (progress_is_throttled sampleCalls).1⟩

/-! ## Due defaults to the charge (C22) -/

theorem resolveCharge_ne_nil (record : Row) : resolveCharge record ≠ [] := by
  unfold resolveCharge
  iterate 6 apply orElse_ne_nil
  decide

/-- C22: for every billing row that has no non-empty value under Due, due,
Amount Due or amount_due, the patient's due equals the patient's charge, which
is itself `0.00` when no charge alias has a non-empty value; the due and the
charge of a patient are never empty. -/
theorem due_falls_back_to_charge (env : Env) (billingData : List Row)
    (emailData : Option (List Row)) (i : Nat) (record : Row) (p : Patient)
    (hrow : billingData[i]? = some record)
    (hp : (processOutputDocsFormat env billingData emailData).patients[i]? = some p) :
    ((∀ k ∈ dueAliases, getProp record k = none ∨ getProp record k = some []) →
      p.due = p.charge) ∧
    ((∀ k ∈ chargeAliases, getProp record k = none ∨ getProp record k = some []) →
      p.charge = "0.00".toList) ∧
    p.due ≠ [] ∧ p.charge ≠ [] := by
  obtain ⟨record', hrow', rfl⟩ := patient_of_getElem? env billingData emailData i p hp
  rw [hrow] at hrow'
  cases Option.some.inj hrow'
  have hcharge : resolveCharge record ≠ [] := resolveCharge_ne_nil record
  refine ⟨fun hdue => ?_, fun hch => ?_, ?_, hcharge⟩
  · show resolveDue record = resolveCharge record
    rw [resolveDue_eq, (firstNonEmpty_eq_none_iff record dueAliases).mpr hdue]
    rfl
  · show resolveCharge record = _
    rw [resolveCharge_eq, (firstNonEmpty_eq_none_iff record chargeAliases).mpr hch]
    rfl
  · show resolveDue record ≠ []
    rw [resolveDue_eq]
    rcases h : firstNonEmpty record dueAliases with _ | v
    · exact hcharge
    · exact firstNonEmpty_ne_nil record dueAliases v h

/-- Instance of C22: the row `bobRow` has a charge of `20.00` and no due cell,
and the row `annRow` has no charge cell: the due of the first is its charge,
the charge of the second is `0.00`. -/
theorem due_falls_back_to_charge_witness :
    (∀ k ∈ dueAliases, getProp bobRow k = none ∨ getProp bobRow k = some []) ∧
    (∀ k ∈ chargeAliases, getProp annRow k = none ∨ getProp annRow k = some []) ∧
    (buildPatient utcEnv "Statement" none bobRow 1).due =
      (buildPatient utcEnv "Statement" none bobRow 1).charge ∧
    (buildPatient utcEnv "Statement" none bobRow 1).due = "20.00".toList ∧
    (buildPatient utcEnv "Statement" none annRow 0).charge = "0.00".toList :=
  have hdue : ∀ k ∈ dueAliases, getProp bobRow k = none ∨ getProp bobRow k = some [] := by
    decide
  have hch : ∀ k ∈ chargeAliases, getProp annRow k = none ∨ getProp annRow k = some [] := by
    decide
  ⟨hdue, hch,
    (due_falls_back_to_charge utcEnv [annRow, bobRow] none 1 bobRow
      (buildPatient utcEnv "Statement" none bobRow 1) rfl rfl).1 hdue,
    by decide,
    (due_falls_back_to_charge utcEnv [annRow, bobRow] none 0 annRow
      (buildPatient utcEnv "Statement" none annRow 0) rfl rfl).2.1 hch⟩

/-! ## File names do not depend on the whole name (C23) -/

theorem resolveFirstName_eq (record : Row) :
    resolveFirstName record = (firstNonEmpty record firstNameAliases).getD [] := by
  unfold resolveFirstName firstNameAliases
  iterate 4 rw [← orElse_firstNonEmpty]
  rfl

theorem resolveLastName_eq (record : Row) :
    resolveLastName record = (firstNonEmpty record lastNameAliases).getD [] := by
  unfold resolveLastName lastNameAliases
  iterate 4 rw [← orElse_firstNonEmpty]
  rfl

theorem names_empty_of_no_alias (record : Row)
    (h : ∀ k ∈ firstNameAliases ++ lastNameAliases,
      getProp record k = none ∨ getProp record k = some []) :
    resolveFirstName record = [] ∧ resolveLastName record = [] := by
  constructor
  · rw [resolveFirstName_eq, getD_firstNonEmpty_eq_nil_iff]
    exact fun k hk => h k (List.mem_append_left _ hk)
  · rw [resolveLastName_eq, getD_firstNonEmpty_eq_nil_iff]
    exact fun k hk => h k (List.mem_append_right _ hk)

/-- C23: the file names do not depend on the whole-name fields or on the row
position: two rows of one run that have no non-empty first-name or last-name
alias and the same resolved date get the same `fileName` and the same
`pdfFileName`, which begin with two spaces, whatever their Patient and Name
values and hence the patients' names are. -/
theorem file_name_ignores_whole_name (env : Env) (billingData : List Row)
    (emailData : Option (List Row)) (i j : Nat) (ri rj : Row) (p q : Patient)
    (hri : billingData[i]? = some ri) (hrj : billingData[j]? = some rj)
    (hp : (processOutputDocsFormat env billingData emailData).patients[i]? = some p)
    (hq : (processOutputDocsFormat env billingData emailData).patients[j]? = some q)
    (hni : ∀ k ∈ firstNameAliases ++ lastNameAliases,
      getProp ri k = none ∨ getProp ri k = some [])
    (hnj : ∀ k ∈ firstNameAliases ++ lastNameAliases,
      getProp rj k = none ∨ getProp rj k = some [])
    (hdate : p.date = q.date) :
    p.fileName = q.fileName ∧ p.pdfFileName = q.pdfFileName ∧
    (∃ rest, p.fileName = ' ' :: ' ' :: rest) ∧ (∃ rest, p.pdfFileName = ' ' :: ' ' :: rest) := by
  obtain ⟨ri', hri', rfl⟩ := patient_of_getElem? env billingData emailData i p hp
  obtain ⟨rj', hrj', rfl⟩ := patient_of_getElem? env billingData emailData j q hq
  rw [hri] at hri'
  rw [hrj] at hrj'
  cases Option.some.inj hri'
  cases Option.some.inj hrj'
  have hd : resolveDate env ri = resolveDate env rj := hdate
  obtain ⟨hfi, hli⟩ := names_empty_of_no_alias ri hni
  obtain ⟨hfj, hlj⟩ := names_empty_of_no_alias rj hnj
  have hi := fileName_eq env (determineDocumentType billingData) emailData ri i
  have hj := fileName_eq env (determineDocumentType billingData) emailData rj j
  rw [hfi, hli] at hi
  rw [hfj, hlj, ← hd] at hj
  refine ⟨hi.1.trans hj.1.symm, hi.2.trans hj.2.symm,
    ⟨determineDocumentType billingData ++ " ".toList ++ formatDate env (resolveDate env ri) ++
      ".txt".toList, ?_⟩,
    ⟨determineDocumentType billingData ++ " ".toList ++ formatDate env (resolveDate env ri) ++
      ".pdf".toList, ?_⟩⟩
  · rw [hi.1]
    rfl
  · rw [hi.2]
    rfl

/-- Instance of C23: the rows `annRow` and `bobRow` have no first or last name
and the same date; the patients are named `Ann Lee` and `Bob Ray` and both
get the file name `  Statement 01-15-24.txt`. -/
theorem file_name_ignores_whole_name_witness :
    (processOutputDocsFormat utcEnv [annRow, bobRow] none).patients.map Patient.name =
      ["Ann Lee".toList, "Bob Ray".toList] ∧
    (buildPatient utcEnv "Statement" none annRow 0).fileName =
      (buildPatient utcEnv "Statement" none bobRow 1).fileName ∧
    (buildPatient utcEnv "Statement" none annRow 0).fileName =
      "  Statement 01-15-24.txt".toList :=
  ⟨by decide,
    (file_name_ignores_whole_name utcEnv [annRow, bobRow] none 0 1 annRow bobRow
      (buildPatient utcEnv "Statement" none annRow 0)
      (buildPatient utcEnv "Statement" none bobRow 1) rfl rfl rfl rfl (by decide) (by decide)
      (by decide)).1,
    by decide⟩

end PatientBilling
